import Mathlib

/-!
Verification of the ERG2024 backend (hazmat emergency-response guide service).

This file gives a shallow embedding, in Lean 4, of the pure computational
core of the backend found under src/backend/app:

* embeddings.py   — tokenizer and the deterministic hashed bag-of-words
                    embedding provider (SHA-256 based);
* erg_ingestion.py — UN-index extraction from page text and table grids,
                    guide-header discovery, paragraph chunker, and the
                    ingestion pipeline as a pure state transformer over a
                    relational-store model;
* main.py         — the fallback (non-native-vector) retrieval engine with
                    anchor boosting;
* erg_api.py      — the material search / lookup endpoints with their
                    incidental audit-log writes.

Python strings are modelled as lists of characters (code points), which
matches Python's indexing and length semantics; byte-level operations
(hashing) go through an explicit UTF-8 encoder.  Machine floats that in the
code only ever hold exact small integers or their quotients are modelled as
exact numbers (integers, rationals, reals).  Database tables are modelled as
in-memory lists of row records; an SQL query of the form
filter/order-by/first becomes the corresponding list operation.
-/

/-- Python strings are sequences of code points; we model them as `List Char`. -/
abbrev Str := List Char

/-- Turn a Lean string literal into the model type. -/
def str (s : String) : Str := s.data

/-- The ASCII whitespace characters stripped by Python's `str.strip()` and
matched by the regex class `\s` (space, tab, newline, carriage return,
vertical tab, form feed).  The model covers ASCII text. -/
def isPyWs (c : Char) : Bool :=
  c = ' ' || c = '\t' || c = '\n' || c = '\r' || c = Char.ofNat 11 || c = Char.ofNat 12

/-- ASCII decimal digit, the regex class `\d`. -/
def isPyDigit (c : Char) : Bool := '0' ≤ c && c ≤ '9'

/-- ASCII word character, the regex class `\w` (used for `\b` boundaries). -/
def isPyWord (c : Char) : Bool :=
  isPyDigit c || ('a' ≤ c && c ≤ 'z') || ('A' ≤ c && c ≤ 'Z') || c = '_'

/-- Characters other than `\n` and `\r`, the regex class `[^\n\r]`. -/
def isNonNL (c : Char) : Bool := c ≠ '\n' && c ≠ '\r'

/-- Python `str.lstrip()` (whitespace variant). -/
def pyStripLeft (s : Str) : Str := s.dropWhile isPyWs

/-- Python `str.rstrip()` (whitespace variant). -/
def pyStripRight (s : Str) : Str := (s.reverse.dropWhile isPyWs).reverse

/-- Python `str.strip()` (whitespace variant). -/
def pyStrip (s : Str) : Str := pyStripRight (pyStripLeft s)

/-- Python `str.lower()` restricted to ASCII. -/
def pyLower (s : Str) : Str := s.map Char.toLower

/-- Python `str.upper()` restricted to ASCII. -/
def pyUpper (s : Str) : Str := s.map Char.toUpper

/-- One step of `pySplitOn`: leftmost non-overlapping occurrences of the
(nonempty) separator split the string; `fuel` bounds recursion depth. -/
def pySplitOnAux (sep : Str) (fuel : Nat) (s : Str) (cur : Str) : List Str :=
  match fuel with
  | 0 => [cur.reverse]
  | fuel + 1 =>
    if sep ≠ [] ∧ sep.isPrefixOf s then
      cur.reverse :: pySplitOnAux sep fuel (s.drop sep.length) []
    else
      match s with
      | [] => [cur.reverse]
      | c :: rest => pySplitOnAux sep fuel rest (c :: cur)

/-- Python `str.split(sep)` for a nonempty separator: splits on leftmost
non-overlapping occurrences, keeping empty fields. -/
def pySplitOn (s sep : Str) : List Str := pySplitOnAux sep (s.length + 1) s []

/-- Python `str.split()` with no argument (fuel-bounded recursion): split on
whitespace runs, discarding empty fields. -/
def pySplitWsAux (fuel : Nat) (s : Str) : List Str :=
  match fuel with
  | 0 => []
  | fuel + 1 =>
    match s.dropWhile isPyWs with
    | [] => []
    | rest =>
      let tok := rest.takeWhile (fun c => !isPyWs c)
      tok :: pySplitWsAux fuel (rest.drop tok.length)

/-- Python `str.split()` with no argument: split on whitespace runs,
discarding empty fields. -/
def pySplitWs (s : Str) : List Str := pySplitWsAux (s.length + 1) s

/-- Python `str.splitlines()` restricted to ASCII line breaks
(`\n`, `\r`, `\r\n`), fuel-bounded: no trailing empty line for a terminal
break. -/
def pySplitLinesAux (fuel : Nat) (s : Str) : List Str :=
  match fuel with
  | 0 => []
  | fuel + 1 =>
    match s with
    | [] => []
    | _ =>
      let line := s.takeWhile (fun c => c ≠ '\n' && c ≠ '\r')
      match s.drop line.length with
      | '\r' :: '\n' :: r => line :: pySplitLinesAux fuel r
      | _ :: r => line :: pySplitLinesAux fuel r
      | [] => [line]

/-- Python `str.splitlines()` restricted to ASCII line breaks. -/
def pySplitLines (s : Str) : List Str := pySplitLinesAux (s.length + 1) s

/-- Python `"sep".join(xs)`. -/
def pyJoin (sep : Str) : List Str → Str
  | [] => []
  | [x] => x
  | x :: xs => x ++ sep ++ pyJoin sep xs

/-- Python `str.replace(pat, repl)` for a nonempty pattern. -/
def pyReplaceAux (pat repl : Str) (fuel : Nat) (s : Str) : Str :=
  match fuel with
  | 0 => s
  | fuel + 1 =>
    if pat ≠ [] ∧ pat.isPrefixOf s then
      repl ++ pyReplaceAux pat repl fuel (s.drop pat.length)
    else
      match s with
      | [] => []
      | c :: rest => c :: pyReplaceAux pat repl fuel rest

/-- Python `str.replace(pat, repl)` (nonempty pattern). -/
def pyReplace (s pat repl : Str) : Str := pyReplaceAux pat repl (s.length + 1) s

/-- Numeric value of a digit string (the model of Python `int(...)` on an
already-validated string of decimal digits). -/
def digitsToNat (s : Str) : Nat :=
  s.foldl (fun acc c => acc * 10 + (c.toNat - '0'.toNat)) 0

/-- UTF-8 encoding of one code point. -/
def utf8Char (c : Char) : List Nat :=
  let n := c.toNat
  if n < 128 then [n]
  else if n < 2048 then [192 + n / 64, 128 + n % 64]
  else if n < 65536 then [224 + n / 4096, 128 + (n / 64) % 64, 128 + n % 64]
  else [240 + n / 262144, 128 + (n / 4096) % 64, 128 + (n / 64) % 64, 128 + n % 64]

/-- Python `str.encode("utf-8")`: the byte sequence of a string. -/
def utf8Encode (s : Str) : List Nat := (s.map utf8Char).flatten

/-! ## SHA-256

An executable model of the SHA-256 digest used by `hashlib.sha256` in
`embeddings.py` and `erg_ingestion.py`, over byte lists (`List Nat`,
each entry < 256). -/

/-- 2^32, the word modulus of SHA-256 arithmetic. -/
def w32 : Nat := 4294967296

/-- Addition modulo 2^32. -/
def add32 (a b : Nat) : Nat := (a + b) % w32

/-- Right rotation of a 32-bit word. -/
def rotr32 (x n : Nat) : Nat := ((x >>> n) ||| (x <<< (32 - n))) % w32

/-- SHA-256 round constants. -/
def sha256K : List Nat := [
  1116352408, 1899447441, 3049323471, 3921009573, 961987163, 1508970993, 2453635748, 2870763221,
  3624381080, 310598401, 607225278, 1426881987, 1925078388, 2162078206, 2614888103, 3248222580,
  3835390401, 4022224774, 264347078, 604807628, 770255983, 1249150122, 1555081692, 1996064986,
  2554220882, 2821834349, 2952996808, 3210313671, 3336571891, 3584528711, 113926993, 338241895,
  666307205, 773529912, 1294757372, 1396182291, 1695183700, 1986661051, 2177026350, 2456956037,
  2730485921, 2820302411, 3259730800, 3345764771, 3516065817, 3600352804, 4094571909, 275423344,
  430227734, 506948616, 659060556, 883997877, 958139571, 1322822218, 1537002063, 1747873779,
  1955562222, 2024104815, 2227730452, 2361852424, 2428436474, 2756734187, 3204031479, 3329325298]

/-- SHA-256 initial hash state. -/
def sha256H0 : List Nat :=
  [1779033703, 3144134277, 1013904242, 2773480762, 1359893119, 2600822924, 528734635, 1541459225]

/-- Big-endian word from four bytes. -/
def bytesToWordBE (b0 b1 b2 b3 : Nat) : Nat := ((b0 * 256 + b1) * 256 + b2) * 256 + b3

/-- Group a byte list into big-endian 32-bit words (length must be a
multiple of four). -/
def bytesToWordsBE : List Nat → List Nat
  | b0 :: b1 :: b2 :: b3 :: rest => bytesToWordBE b0 b1 b2 b3 :: bytesToWordsBE rest
  | _ => []

/-- Big-endian bytes of a 32-bit word. -/
def wordToBytesBE (w : Nat) : List Nat :=
  [w / 16777216 % 256, w / 65536 % 256, w / 256 % 256, w % 256]

/-- SHA-256 message padding: append 0x80, zeros, and the 64-bit big-endian
bit length, to a multiple of 64 bytes. -/
def sha256Pad (msg : List Nat) : List Nat :=
  let len := msg.length
  let zeros := (64 + 55 - len % 64) % 64
  let bitLen := len * 8
  msg ++ [128] ++ List.replicate zeros 0 ++
    [bitLen / 72057594037927936 % 256, bitLen / 281474976710656 % 256,
     bitLen / 1099511627776 % 256, bitLen / 4294967296 % 256,
     bitLen / 16777216 % 256, bitLen / 65536 % 256, bitLen / 256 % 256, bitLen % 256]

/-- Split words into 16-word blocks (fuel-bounded recursion). -/
def sha256BlocksAux (fuel : Nat) (ws : List Nat) : List (List Nat) :=
  match fuel, ws with
  | _, [] => []
  | 0, _ => []
  | fuel + 1, ws => ws.take 16 :: sha256BlocksAux fuel (ws.drop 16)

/-- Split padded words into 16-word blocks. -/
def sha256Blocks (ws : List Nat) : List (List Nat) := sha256BlocksAux ws.length ws

/-- Message-schedule extension: `steps` further words, where the working
list keeps the newest word at the head. -/
def sha256Extend (steps : Nat) (rws : List Nat) : List Nat :=
  match steps with
  | 0 => rws
  | steps + 1 =>
    let w2 := rws.getD 1 0
    let w7 := rws.getD 6 0
    let w15 := rws.getD 14 0
    let w16 := rws.getD 15 0
    let s0 := (rotr32 w15 7) ^^^ (rotr32 w15 18) ^^^ (w15 >>> 3)
    let s1 := (rotr32 w2 17) ^^^ (rotr32 w2 19) ^^^ (w2 >>> 10)
    sha256Extend steps (add32 (add32 s1 w7) (add32 s0 w16) :: rws)

/-- The 64-word message schedule of one block. -/
def sha256Schedule (block : List Nat) : List Nat :=
  (sha256Extend 48 block.reverse).reverse

/-- One round of the SHA-256 compression function. -/
def sha256Round (st : List Nat) (kw : Nat × Nat) : List Nat :=
  let a := st.getD 0 0
  let b := st.getD 1 0
  let c := st.getD 2 0
  let d := st.getD 3 0
  let e := st.getD 4 0
  let f := st.getD 5 0
  let g := st.getD 6 0
  let h := st.getD 7 0
  let s1 := (rotr32 e 6) ^^^ (rotr32 e 11) ^^^ (rotr32 e 25)
  let ch := (e &&& f) ^^^ ((w32 - 1 - e) &&& g)
  let t1 := add32 (add32 h s1) (add32 ch (add32 kw.1 kw.2))
  let s0 := (rotr32 a 2) ^^^ (rotr32 a 13) ^^^ (rotr32 a 22)
  let mj := (a &&& b) ^^^ (a &&& c) ^^^ (b &&& c)
  let t2 := add32 s0 mj
  [add32 t1 t2, a, b, c, add32 d t1, e, f, g]

/-- Process one 16-word block, updating the eight-word hash state. -/
def sha256Block (st : List Nat) (block : List Nat) : List Nat :=
  let ws := sha256Schedule block
  let st2 := (sha256K.zip ws).foldl sha256Round st
  List.zipWith add32 st st2

/-- SHA-256 digest of a byte list, as 32 bytes. -/
def sha256 (msg : List Nat) : List Nat :=
  let blocks := sha256Blocks (bytesToWordsBE (sha256Pad msg))
  ((blocks.foldl sha256Block sha256H0).map wordToBytesBE).flatten

/-- Hexadecimal digit character. -/
def hexDigit (n : Nat) : Char :=
  if n < 10 then Char.ofNat ('0'.toNat + n) else Char.ofNat ('a'.toNat + n - 10)

/-- `hashlib.sha256(...).hexdigest()` of a string, over its UTF-8 bytes. -/
def sha256HexOfStr (s : Str) : Str :=
  ((sha256 (utf8Encode s)).map (fun b => [hexDigit (b / 16), hexDigit (b % 16)])).flatten

/-! ## The embedding provider (embeddings.py)

`_tokenize` and `embed_text_local_hash`: a deterministic hashed
bag-of-words embedding.  The accumulated vector holds exact signed counts,
modelled over `ℤ`; the returned (normalised) vector is real-valued. -/

/-- Characters kept by the substitution `re.sub(r"[^a-z0-9\s]+", " ", text)`
(the text has already been lower-cased). -/
def isTokKeep (c : Char) : Bool :=
  ('a' ≤ c && c ≤ 'z') || isPyDigit c || isPyWs c

/-- `re.sub(r"[^a-z0-9\s]+", " ", s)`: each maximal run of excluded
characters becomes a single space (fuel-bounded recursion). -/
def subBadRunsAux (fuel : Nat) (s : Str) : Str :=
  match fuel with
  | 0 => s
  | fuel + 1 =>
    match s with
    | [] => []
    | c :: rest =>
      if isTokKeep c then c :: subBadRunsAux fuel rest
      else ' ' :: subBadRunsAux fuel (rest.dropWhile (fun d => !isTokKeep d))

/-- `re.sub(r"[^a-z0-9\s]+", " ", s)`. -/
def subBadRuns (s : Str) : Str := subBadRunsAux (s.length + 1) s

/-- `_tokenize` from embeddings.py: empty input short-circuits; otherwise
lower-case, replace excluded-character runs by spaces, split on whitespace
(the final comprehension filter drops no further tokens since `split()`
never yields empty fields). -/
def pyTokenize (s : Str) : List Str :=
  if s = [] then []
  else pySplitWs (subBadRuns (pyLower s))

/-- Bucket index of a token: the first four digest bytes as a big-endian
integer, reduced modulo `dim`. -/
def tokIndex (tok : Str) (dim : Nat) : Nat :=
  let h := sha256 (utf8Encode tok)
  bytesToWordBE (h.getD 0 0) (h.getD 1 0) (h.getD 2 0) (h.getD 3 0) % dim

/-- Sign of a token: minus one when bit 0 of digest byte 4 is set. -/
def tokSign (tok : Str) : ℤ :=
  let h := sha256 (utf8Encode tok)
  if (h.getD 4 0) &&& 1 = 1 then -1 else 1

/-- The accumulated (pre-normalisation) embedding vector of
`embed_text_local_hash`: start from the zero vector of length `dim` and add
each token's sign into its bucket. -/
def rawVec (text : Str) (dim : Nat) : List ℤ :=
  (pyTokenize text).foldl
    (fun v t =>
      let idx := tokIndex t dim
      v.set idx (v.getD idx 0 + tokSign t))
    (List.replicate dim 0)

/-- Sum of squares of the accumulated vector (the square of the L2 norm
computed by the code before normalisation). -/
def sumSq (v : List ℤ) : ℤ := (v.map (fun x => x * x)).sum

/-- `embed_text_local_hash(text, dim)`: the zero vector when there are no
tokens; otherwise the accumulated vector, divided by its L2 norm when that
norm is positive. -/
noncomputable def embed_text_local_hash (text : Str) (dim : Nat) : List ℝ :=
  let vec := rawVec text dim
  if pyTokenize text = [] then vec.map (fun x : ℤ => (x : ℝ))
  else
    let norm : ℝ := Real.sqrt ((sumSq vec : ℤ) : ℝ)
    if 0 < norm then vec.map (fun x : ℤ => (x : ℝ) / norm)
    else vec.map (fun x : ℤ => (x : ℝ))

/-- Squared L2 norm of a real vector. -/
noncomputable def l2normSq (v : List ℝ) : ℝ := (v.map (fun x => x * x)).sum

/-! ## The paragraph chunker (chunk_text in erg_ingestion.py) -/

/-- The blank-line paragraph separator. -/
def paraSep : Str := str "\n\n"

/-- The paragraph list the chunker works on:
`[p.strip() for p in text.split("\n\n") if p.strip()]`. -/
def chunkParas (text : Str) : List Str :=
  ((pySplitOn text paraSep).map pyStrip).filter (fun p => p ≠ [])

/-- One step of the chunker's greedy accumulation over `(chunks, buf)`:
an empty buffer is seeded with the paragraph; a fitting paragraph is
appended to the buffer; otherwise the buffer is emitted and the next buffer
is seeded with the last `overlap` characters of the emitted chunk plus the
new paragraph, stripped. -/
def chunkStep (maxChars overlap : Nat) (st : List Str × Str) (p : Str) : List Str × Str :=
  let chunks := st.1
  let buf := st.2
  if buf = [] then (chunks, p)
  else if buf.length + 2 + p.length ≤ maxChars then (chunks, buf ++ paraSep ++ p)
  else
    let tail := if 0 < overlap ∧ overlap < buf.length then buf.drop (buf.length - overlap) else []
    (chunks ++ [buf], pyStrip (tail ++ paraSep ++ p))

/-- `chunk_text(text, max_chars, overlap)` from erg_ingestion.py. -/
def chunk_text (text : Str) (maxChars overlap : Nat) : List Str :=
  if text = [] then []
  else
    let st := (chunkParas text).foldl (chunkStep maxChars overlap) ([], [])
    if st.2 = [] then st.1 else st.1 ++ [st.2]

/-- A chunk together with the length of its seeded overlap prefix and the
source paragraphs it carries: the instrumented form of the chunker used to
state the reconstruction guarantee. -/
structure ChunkMeta where
  chunk : Str
  dropLen : Nat
  paras : List Str

/-- The instrumented chunker step: identical branching to `chunkStep`,
additionally recording each chunk's overlap-prefix length and paragraphs. -/
def chunkMetaStep (maxChars overlap : Nat) (st : List ChunkMeta × ChunkMeta) (p : Str) :
    List ChunkMeta × ChunkMeta :=
  let emitted := st.1
  let buf := st.2
  if buf.chunk = [] then (emitted, ⟨p, 0, [p]⟩)
  else if buf.chunk.length + 2 + p.length ≤ maxChars then
    (emitted, ⟨buf.chunk ++ paraSep ++ p, buf.dropLen, buf.paras ++ [p]⟩)
  else
    let tail :=
      if 0 < overlap ∧ overlap < buf.chunk.length then
        buf.chunk.drop (buf.chunk.length - overlap)
      else []
    let seed := pyStrip (tail ++ paraSep ++ p)
    (emitted ++ [buf], ⟨seed, seed.length - p.length, [p]⟩)

/-- The instrumented chunker over a paragraph list. -/
def chunkMetas (maxChars overlap : Nat) (parts : List Str) : List ChunkMeta :=
  let st := parts.foldl (chunkMetaStep maxChars overlap) ([], ⟨[], 0, []⟩)
  if st.2.chunk = [] then st.1 else st.1 ++ [st.2]

/-- A chunk with its seeded overlap prefix dropped. -/
def droppedChunk (m : ChunkMeta) : Str := m.chunk.drop m.dropLen

/-- The longest paragraph length of a paragraph list. -/
def maxParaLen (parts : List Str) : Nat := parts.foldr (fun p m => max p.length m) 0

/-- What the instrumented chunker guarantees of every chunk it carries: the
chunk is its recorded overlap-seed prefix (at most `overlap + 2`
characters, the recorded drop length) followed by the separator-join of
its source paragraphs, the paragraph group is nonempty, and the chunk
length is bounded by `max maxChars (overlap + 2 + maxParaLen parts)`. -/
def GoodMeta (maxChars overlap : Nat) (parts : List Str) (m : ChunkMeta) : Prop :=
  (∃ w, m.chunk = w ++ pyJoin paraSep m.paras ∧ m.dropLen = w.length ∧
    w.length ≤ overlap + 2) ∧
  m.paras ≠ [] ∧
  m.chunk.length ≤ max maxChars (overlap + 2 + maxParaLen parts)

/-! ## UN-index extraction (erg_ingestion.py)

Executable models of `_UN_RE`, `_GUIDE_RE`, `_GUIDE_HEADER_RE`,
`_extract_un_index_from_table`, `_extract_un_index_from_text`,
`_is_valid_guide` and `_discover_guide_numbers_in_text`.  The regex
scanners follow Python `re` semantics (leftmost, non-overlapping matches;
greedy and lazy quantifiers with the backtracking the concrete patterns can
actually exercise) over ASCII text. -/

/-- `_UN_RE`: the anchored pattern `^(\d{4})$`. -/
def unRe (u : Str) : Bool := u.length = 4 && u.all isPyDigit

/-- `_GUIDE_RE`: the anchored pattern `^(\d{3}P?)$`. -/
def guideRe (g : Str) : Bool :=
  ((g.take 3).length = 3 && (g.take 3).all isPyDigit) &&
    (g.drop 3 = [] || g.drop 3 = ['P'])

/-- `_is_valid_guide`: the shape check plus the 100–199 range check on the
three-digit numeric part. -/
def isValidGuide (g : Str) : Bool :=
  guideRe g && (100 ≤ digitsToNat (g.take 3) && digitsToNat (g.take 3) ≤ 199)

/-- Word-boundary test `\b` between an optional previous character and the
following character (`none` = outside the string). -/
def isBoundary (prev next : Option Char) : Bool :=
  let pw := match prev with | some p => isPyWord p | none => false
  let nw := match next with | some c => isPyWord c | none => false
  pw != nw

/-- Keep the first occurrence of every element. -/
def dedupFirstAux [DecidableEq α] (seen : List α) : List α → List α
  | [] => []
  | x :: xs => if x ∈ seen then dedupFirstAux seen xs else x :: dedupFirstAux (x :: seen) xs

/-- Keep the first occurrence of every element (Python dict-key /
membership-guarded-append dedup). -/
def dedupFirst [DecidableEq α] (l : List α) : List α := dedupFirstAux [] l

/-- Attempt to match `\b(\d{4})\s+(\d{3}P?)\s+([^\n\r]{2,120})` at the head
of `s` (with `prev` the character before `s`).  Returns the groups
`(un, guide, raw name)` and the remainder after the match.  The optional
`P` is taken exactly when present and followed by whitespace (backtracking
to no `P` then fails on `\s+`); the final greedy `\s+` gives back up to two
trailing non-newline whitespace characters when the name window alone is
shorter than two characters. -/
def tryMatchA (prev : Option Char) (s : Str) : Option ((Str × Str × Str) × Str) :=
  if !isBoundary prev s.head? then none
  else
    let un := s.take 4
    if ¬(un.length = 4 ∧ un.all isPyDigit) then none
    else
      let s1 := s.drop 4
      let ws1 := s1.takeWhile isPyWs
      if ws1 = [] then none
      else
        let s2 := s1.drop ws1.length
        let d3 := s2.take 3
        if ¬(d3.length = 3 ∧ d3.all isPyDigit) then none
        else
          let s3 := s2.drop 3
          let pq : Option (Str × Str) :=
            match s3 with
            | 'P' :: s4 => if s4.takeWhile isPyWs ≠ [] then some (d3 ++ ['P'], s4) else none
            | _ => if s3.takeWhile isPyWs ≠ [] then some (d3, s3) else none
          match pq with
          | none => none
          | some (guide, s4) =>
            let ws2 := s4.takeWhile isPyWs
            let s5 := s4.drop ws2.length
            let m := min 120 (s5.takeWhile isNonNL).length
            if 2 ≤ m then some ((un, guide, s5.take m), s5.drop m)
            else
              let d := 2 - m
              let back := ws2.drop (ws2.length - d)
              if d + 1 ≤ ws2.length ∧ back.all isNonNL then
                some ((un, guide, back ++ s5.take m), s5.drop m)
              else none

/-- Attempt to match the tail `\s+(\d{3}P?)\s+(\d{4})\b` of the reversed
pattern, at the head of `s`.  Returns `(guide, un)` and the remainder. -/
def tryMatchBRest (s : Str) : Option ((Str × Str) × Str) :=
  let ws1 := s.takeWhile isPyWs
  if ws1 = [] then none
  else
    let s1 := s.drop ws1.length
    let d3 := s1.take 3
    if ¬(d3.length = 3 ∧ d3.all isPyDigit) then none
    else
      let s2 := s1.drop 3
      let pq : Option (Str × Str) :=
        match s2 with
        | 'P' :: s3 => if s3.takeWhile isPyWs ≠ [] then some (d3 ++ ['P'], s3) else none
        | _ => if s2.takeWhile isPyWs ≠ [] then some (d3, s2) else none
      match pq with
      | none => none
      | some (guide, s3) =>
        let ws2 := s3.takeWhile isPyWs
        let s4 := s3.drop ws2.length
        let un := s4.take 4
        if ¬(un.length = 4 ∧ un.all isPyDigit) then none
        else
          let s5 := s4.drop 4
          match s5.head? with
          | some c => if isPyWord c then none else some ((guide, un), s5)
          | none => some ((guide, un), s5)

/-- The lazy expansion of the leading name group `([^\n\r]{2,120}?)`:
try the shortest name first, lengthening one (non-newline) character at a
time while the rest of the pattern fails. -/
def tryMatchBLoop (g1 rest : Str) (fuel : Nat) : Option ((Str × Str × Str) × Str) :=
  match tryMatchBRest rest with
  | some ((guide, un), s5) => some ((g1, guide, un), s5)
  | none =>
    match fuel, rest with
    | fuel + 1, c :: rest2 =>
      if isNonNL c ∧ g1.length < 120 then tryMatchBLoop (g1 ++ [c]) rest2 fuel
      else none
    | _, _ => none

/-- Attempt to match `\b([^\n\r]{2,120}?)\s+(\d{3}P?)\s+(\d{4})\b` at the
head of `s`.  Returns the groups `(raw name, guide, un)` and the remainder
after the match (the trailing `\b` is zero-width). -/
def tryMatchB (prev : Option Char) (s : Str) : Option ((Str × Str × Str) × Str) :=
  if !isBoundary prev s.head? then none
  else
    let g1 := s.take 2
    if g1.length = 2 ∧ g1.all isNonNL then tryMatchBLoop g1 (s.drop 2) 118
    else none

/-- `re.finditer` for the forward pattern: scan left to right, resuming
after each (nonempty) match. -/
def scanA (fuel : Nat) (prev : Option Char) (s : Str) : List (Str × Str × Str) :=
  match fuel with
  | 0 => []
  | fuel + 1 =>
    match s with
    | [] => []
    | c :: rest =>
      match tryMatchA prev s with
      | some (g, after) => g :: scanA fuel g.2.2.getLast? after
      | none => scanA fuel (some c) rest

/-- `re.finditer` for the reversed pattern. -/
def scanB (fuel : Nat) (prev : Option Char) (s : Str) : List (Str × Str × Str) :=
  match fuel with
  | 0 => []
  | fuel + 1 =>
    match s with
    | [] => []
    | c :: rest =>
      match tryMatchB prev s with
      | some (g, after) => g :: scanB fuel g.2.2.getLast? after
      | none => scanB fuel (some c) rest

/-- `_extract_un_index_from_text(page_text)`: non-breaking spaces become
spaces; the forward scan then the reversed scan feed an insertion-ordered
dict keyed by the `(un, guide, name)` triple; rows must pass `_UN_RE`,
`_is_valid_guide` and a nonempty stripped name. -/
def extract_un_index_from_text (pageText : Str) : List (Str × Str × Str) :=
  if pageText = [] then []
  else
    let txt := pageText.map (fun c => if c = Char.ofNat 160 then ' ' else c)
    let aTrips := (scanA (txt.length + 1) none txt).filterMap (fun g =>
      let name := pyStrip g.2.2
      if unRe g.1 ∧ isValidGuide g.2.1 ∧ name ≠ [] then some (g.1, g.2.1, name) else none)
    let bTrips := (scanB (txt.length + 1) none txt).filterMap (fun g =>
      let name := pyStrip g.1
      if unRe g.2.2 ∧ isValidGuide g.2.1 ∧ name ≠ [] then some (g.2.2, g.2.1, name) else none)
    dedupFirst (aTrips ++ bTrips)

/-- The free-text scan's rows before the dict dedup of
`_extract_un_index_from_text`: the forward scan's rows then the reversed
scan's rows, in match order, each occurrence kept. -/
def textTripsRaw (pageText : Str) : List (Str × Str × Str) :=
  if pageText = [] then []
  else
    let txt := pageText.map (fun c => if c = Char.ofNat 160 then ' ' else c)
    let aTrips := (scanA (txt.length + 1) none txt).filterMap (fun g =>
      let name := pyStrip g.2.2
      if unRe g.1 ∧ isValidGuide g.2.1 ∧ name ≠ [] then some (g.1, g.2.1, name) else none)
    let bTrips := (scanB (txt.length + 1) none txt).filterMap (fun g =>
      let name := pyStrip g.1
      if unRe g.2.2 ∧ isValidGuide g.2.1 ∧ name ≠ [] then some (g.2.2, g.2.1, name) else none)
    aTrips ++ bTrips

/-- `_coerce_text` on a (string) cell: strip.  Cells are modelled as
strings; the code also coerces `None` and non-strings via `str(...)`. -/
def coerceText (s : Str) : Str := pyStrip s

/-- Pass 1 of `_extract_un_index_from_table`: the adjacent-triplet scan
over the stripped cells of each row (validating only the UN and guide
*shapes*). -/
def tableTripletScan (table : List (List Str)) : List (Str × Str × Str) :=
  table.flatMap (fun row =>
    if row = [] then []
    else
      let cells := row.map coerceText
      (List.range (cells.length - 2)).filterMap (fun i =>
        let un := cells.getD i []
        let guide := cells.getD (i + 1) []
        let name := cells.getD (i + 2) []
        if un ≠ [] ∧ guide ≠ [] ∧ name ≠ [] ∧ unRe un ∧ guideRe guide then
          some (un, guide, name)
        else none))

/-- The collapsed text blob of a table: rows joined by newlines, each row
the space-join of its nonempty stripped cells. -/
def tableBlob (table : List (List Str)) : Str :=
  pyJoin ['\n'] (table.map (fun row => pyJoin [' '] ((row.map coerceText).filter (fun c => c ≠ []))))

/-- `re.match(r"^\D*(\d{4})\s+(\d{3}P?)\s+(.+)$", l)`: anchored match on a
line (which contains no line breaks).  The final greedy `\s+` gives back
its last character to `(.+)` when nothing else remains. -/
def tryMatchLine (l : Str) : Option (Str × Str × Str) :=
  let r1 := l.drop (l.takeWhile (fun c => !isPyDigit c)).length
  let un := r1.take 4
  if ¬(un.length = 4 ∧ un.all isPyDigit) then none
  else
    let s1 := r1.drop 4
    let ws1 := s1.takeWhile isPyWs
    if ws1 = [] then none
    else
      let s2 := s1.drop ws1.length
      let d3 := s2.take 3
      if ¬(d3.length = 3 ∧ d3.all isPyDigit) then none
      else
        let s3 := s2.drop 3
        let pq : Option (Str × Str) :=
          match s3 with
          | 'P' :: s4 => if s4.takeWhile isPyWs ≠ [] then some (d3 ++ ['P'], s4) else none
          | _ => if s3.takeWhile isPyWs ≠ [] then some (d3, s3) else none
        match pq with
        | none => none
        | some (guide, s4) =>
          let ws2 := s4.takeWhile isPyWs
          let s5 := s4.drop ws2.length
          if s5 ≠ [] then some (un, guide, s5)
          else if 2 ≤ ws2.length then some (un, guide, ws2.drop (ws2.length - 1))
          else none

/-- Pass 2 of `_extract_un_index_from_table`: line-based parsing of the
collapsed blob; pipe-separated lines take the adjacent-triplet scan over
their stripped nonempty fields, other lines the anchored regex (both
validating only the UN and guide shapes). -/
def tableLineTrips (blob : Str) : List (Str × Str × Str) :=
  (pySplitLines blob).flatMap (fun line =>
    let l := pyStrip line
    if l = [] then []
    else if '|' ∈ l then
      let parts := (pySplitOn l ['|']).filterMap (fun p =>
        let q := pyStrip p
        if q ≠ [] then some q else none)
      (List.range (parts.length - 2)).filterMap (fun i =>
        let un := parts.getD i []
        let guide := parts.getD (i + 1) []
        let name := parts.getD (i + 2) []
        if unRe un ∧ guideRe guide ∧ name ≠ [] then some (un, guide, name) else none)
    else
      match tryMatchLine l with
      | some (un, guide, nameRaw) =>
        let name := pyStrip nameRaw
        if unRe un ∧ guideRe guide ∧ name ≠ [] then [(un, guide, name)] else []
      | none => [])

/-- `_extract_un_index_from_table(table)`: both passes, then first-kept
dedup by exact triple. -/
def extract_un_index_from_table (table : List (List Str)) : List (Str × Str × Str) :=
  dedupFirst (tableTripletScan table ++ tableLineTrips (tableBlob table))

/-- The table scan's rows before `_extract_un_index_from_table`'s final
dict dedup: the adjacent-triplet cell scan's rows then the rows parsed
from the collapsed text blob, each occurrence kept. -/
def tableTripsRaw (table : List (List Str)) : List (Str × Str × Str) :=
  tableTripletScan table ++ tableLineTrips (tableBlob table)

/-- The lazy gap `[\s\S]{0,200}?\b(\d{3}P?)\b` of `_GUIDE_HEADER_RE`:
starting right after the GUIDE marker, grow the gap one character at a time
until a word-bounded three-digit (optionally `P`/`p`-suffixed, the pattern
is case-insensitive) number follows.  Returns the captured group and the
remainder after it. -/
def tryHeaderGap (gapLeft : Nat) (prev : Option Char) (s : Str) : Option (Str × Str) :=
  let d3 := s.take 3
  let hit : Option (Str × Str) :=
    if isBoundary prev s.head? ∧ d3.length = 3 ∧ d3.all isPyDigit then
      match s.drop 3 with
      | [] => some (d3, [])
      | c :: rest =>
        if c = 'P' ∨ c = 'p' then
          match rest.head? with
          | some c2 => if isPyWord c2 then none else some (d3 ++ [c], rest)
          | none => some (d3 ++ [c], rest)
        else if isPyWord c then none
        else some (d3, c :: rest)
    else none
  match hit with
  | some r => some r
  | none =>
    match gapLeft, s with
    | gapLeft + 1, c :: rest => tryHeaderGap gapLeft (some c) rest
    | _, _ => none

/-- Attempt to match `\bGUIDE\b[\s\S]{0,200}?\b(\d{3}P?)\b` (IGNORECASE)
at the head of `s`. -/
def tryMatchHeader (prev : Option Char) (s : Str) : Option (Str × Str) :=
  if !isBoundary prev s.head? then none
  else
    let marker := s.take 5
    if ¬(marker.length = 5 ∧ pyLower marker = str "guide") then none
    else
      let after := s.drop 5
      match after.head? with
      | some c => if isPyWord c then none else tryHeaderGap 200 marker.getLast? after
      | none => none

/-- `re.findall` for `_GUIDE_HEADER_RE`: all non-overlapping captured guide
groups, left to right. -/
def scanHeader (fuel : Nat) (prev : Option Char) (s : Str) : List Str :=
  match fuel with
  | 0 => []
  | fuel + 1 =>
    match s with
    | [] => []
    | c :: rest =>
      match tryMatchHeader prev s with
      | some (g, after) => g :: scanHeader fuel g.getLast? after
      | none => scanHeader fuel (some c) rest

/-- `_discover_guide_numbers_in_text(page_text)`: every header match whose
stripped group is a valid guide, first occurrences only. -/
def discover_guide_numbers_in_text (pageText : Str) : List Str :=
  if pageText = [] then []
  else
    (scanHeader (pageText.length + 1) none pageText).foldl
      (fun out m =>
        let g := pyStrip m
        if g ≠ [] ∧ isValidGuide g ∧ g ∉ out then out ++ [g] else out)
      []

/-! ## The ingestion pipeline (ingest_from_extraction in erg_ingestion.py)

The database is modelled as in-memory row lists; the extraction directory
as a parsed summary (`none` = missing `extraction_summary.json`).  Row
`created_at` timestamps are not modelled; the stored embedding vector
(`embed_text(content)`, studied separately above) is likewise omitted from
the row model, every other column is kept. -/

/-- One page of the extraction summary (`{"page": ..., "text": ...}`). -/
structure PageIn where
  page : Nat
  text : Str
deriving DecidableEq, Repr

/-- One table of the extraction summary. -/
structure TableIn where
  page : Nat
  tableNumber : Nat
  nonEmptyCells : Nat
  data : List (List Str)
deriving DecidableEq, Repr

/-- The first document of `extraction_summary.json`, plus the hash of the
referenced source file when it exists. -/
structure ExtractionDoc where
  filename : Option Str
  title : Option Str
  fileSha : Option Str
  pages : List PageIn
  tables : List TableIn
deriving DecidableEq, Repr

/-- Python `a or b` for an optional string (`None` and `""` are falsy). -/
def orElseStr (v : Option Str) (dflt : Str) : Str :=
  match v with
  | some s => if s = [] then dflt else s
  | none => dflt

/-- The derived version tag: `str(metadata.title or pdf_name)` where
`pdf_name = filename or "ERG2024"`. -/
def versionTagOf (doc : ExtractionDoc) : Str :=
  orElseStr doc.title (orElseStr doc.filename (str "ERG2024"))

/-- A stored `erg_source_document` row. -/
structure SourceDocRow where
  id : Nat
  versionTag : Str
  language : Str
  sourceFilename : Str
  sha : Option Str
deriving DecidableEq, Repr

/-- A stored `erg_page` row (`sectionName` is the `section` column, which
is a reserved word in Lean). -/
structure PageRow where
  sourceDocumentId : Nat
  pageNumber : Nat
  sectionName : Option Str
  extractedText : Str
deriving DecidableEq, Repr

/-- A stored `erg_table` row. -/
structure TableRow where
  sourceDocumentId : Nat
  pageNumber : Nat
  tableNumber : Nat
  nonEmptyCells : Nat
  data : List (List Str)
deriving DecidableEq, Repr

/-- A stored `erg_un_index` row. -/
structure UnIndexRow where
  sourceDocumentId : Nat
  unNumber : Str
  guideNumber : Str
  materialName : Str
  pageNumber : Nat
deriving DecidableEq, Repr

/-- A stored `erg_guide_text` row. -/
structure GuideTextRow where
  sourceDocumentId : Nat
  guideNumber : Str
  pageNumbers : List Nat
  content : Str
deriving DecidableEq, Repr

/-- A stored `erg_embedding_chunk` row (the embedding vector itself,
`embed_text(content)`, is omitted from the row model). -/
structure EmbChunkRow where
  sourceDocumentId : Nat
  chunkType : Str
  pageNumber : Option Nat
  guideNumber : Option Str
  unOrNa : Option Str
  content : Str
  contentSha256 : Str
deriving DecidableEq, Repr

/-- The ERG corpus store. -/
structure ErgDb where
  sourceDocs : List SourceDocRow
  pages : List PageRow
  tables : List TableRow
  unIndex : List UnIndexRow
  guideTexts : List GuideTextRow
  embChunks : List EmbChunkRow
  nextId : Nat
deriving DecidableEq, Repr

/-- The empty store. -/
def ErgDb.empty : ErgDb := ⟨[], [], [], [], [], [], 1⟩

/-- The outcome dictionary of `ingest_from_extraction`. -/
inductive IngestResult
  | skipped (message : Str) (sourceDocumentId : Nat)
  | completed (sourceDocumentId pages tables unIndexRows guideTextRows embeddingRows : Nat)
deriving DecidableEq, Repr

/-- `query(ErgSourceDocument).filter(version_tag == vt).order_by(id.desc()).first()`:
the matching row with the largest id. -/
def latestSourceDoc (db : ErgDb) (vt : Str) : Option SourceDocRow :=
  (db.sourceDocs.filter (fun d => d.versionTag = vt)).foldl
    (fun acc d =>
      match acc with
      | none => some d
      | some b => if b.id < d.id then some d else some b)
    none

/-- The force-reingestion path: delete every row of the superseded
document (embedding chunks, guide texts, UN index, tables, pages, and the
source document row itself). -/
def deleteSourceDocument (db : ErgDb) (sid : Nat) : ErgDb :=
  { db with
    embChunks := db.embChunks.filter (fun r => r.sourceDocumentId ≠ sid),
    guideTexts := db.guideTexts.filter (fun r => r.sourceDocumentId ≠ sid),
    unIndex := db.unIndex.filter (fun r => r.sourceDocumentId ≠ sid),
    tables := db.tables.filter (fun r => r.sourceDocumentId ≠ sid),
    pages := db.pages.filter (fun r => r.sourceDocumentId ≠ sid),
    sourceDocs := db.sourceDocs.filter (fun r => r.id ≠ sid) }

/-- Append to the list held under a key of an insertion-ordered
association list (`dict.setdefault(key, []).append(v)`). -/
def assocAppend [DecidableEq κ] (m : List (κ × List β)) (k : κ) (v : β) : List (κ × List β) :=
  match m with
  | [] => [(k, [v])]
  | (k2, vs) :: rest => if k2 = k then (k2, vs ++ [v]) :: rest else (k2, vs) :: assocAppend rest k v

/-- The guide-assembly state of the page scan: page hits and text parts per
guide (insertion-ordered), and the current guide. -/
structure GuideScanState where
  guideHits : List (Str × List Nat)
  guideParts : List (Str × List Str)
  currentGuide : Option Str
deriving DecidableEq, Repr

/-- One page of the Orange-section scan (pages 150–279): a page with a
guide header starts (or restarts) that guide and is attributed to it;
a page without one continues the current guide, if any. -/
def guideScanStep (st : GuideScanState) (p : PageIn) : GuideScanState :=
  if 150 ≤ p.page ∧ p.page < 280 then
    match (discover_guide_numbers_in_text p.text).head? with
    | some g =>
      { guideHits := assocAppend st.guideHits g p.page,
        guideParts := assocAppend st.guideParts g p.text,
        currentGuide := some g }
    | none =>
      match st.currentGuide with
      | some g =>
        { st with
          guideHits := assocAppend st.guideHits g p.page,
          guideParts := assocAppend st.guideParts g p.text }
      | none => st
  else st

/-- Every UN-index observation of one ingestion run in scan order: all
pages (in order), then all tables (in order), each paired with its page
number. -/
def unIndexObservations (doc : ExtractionDoc) : List ((Str × Str × Str) × Nat) :=
  doc.pages.flatMap (fun p => (extract_un_index_from_text p.text).map (fun t => (t, p.page))) ++
    doc.tables.flatMap (fun tb => (extract_un_index_from_table tb.data).map (fun t => (t, tb.page)))

/-- Every individual match of the page and table scans across the document,
before any per-page or per-table dedup: a triple matched twice on one page
or twice in one table appears here once per match. -/
def unIndexRawObservations (doc : ExtractionDoc) : List ((Str × Str × Str) × Nat) :=
  doc.pages.flatMap (fun p => (textTripsRaw p.text).map (fun t => (t, p.page))) ++
    doc.tables.flatMap (fun tb => (tableTripsRaw tb.data).map (fun t => (t, tb.page)))

/-- The `un_index_set` dict: first-observation-wins keyed by the exact
triple, carrying the page number of the first observation. -/
def unIndexSetOf (doc : ExtractionDoc) : List ((Str × Str × Str) × Nat) :=
  (unIndexObservations doc).foldl
    (fun acc ob => if acc.any (fun e => e.1 = ob.1) then acc else acc ++ [ob])
    []

/-- Ascending insertion of a number into a sorted list. -/
def insertAsc (x : Nat) : List Nat → List Nat
  | [] => [x]
  | y :: ys => if x ≤ y then x :: y :: ys else y :: insertAsc x ys

/-- `sorted(...)` on numbers. -/
def sortNatAsc (l : List Nat) : List Nat := l.foldr insertAsc []

/-- The stored guide-text rows: for each guide (in insertion order), the
double-newline join of its text parts; rows whose content strips to
nothing are dropped; page numbers are deduplicated and sorted. -/
def guideRowsOf (sid : Nat) (st : GuideScanState) : List GuideTextRow :=
  st.guideHits.filterMap (fun gh =>
    let content := pyJoin paraSep ((st.guideParts.lookup gh.1).getD [])
    if pyStrip content = [] then none
    else some ⟨sid, gh.1, sortNatAsc (dedupFirst gh.2), content⟩)

/-- The canonical embedded string of a UN-index triple:
`f"UN{un} GUIDE{guide} {name}".strip()`. -/
def unChunkContent (t : Str × Str × Str) : Str :=
  pyStrip (str "UN" ++ t.1 ++ str " GUIDE" ++ t.2.1 ++ [' '] ++ t.2.2)

/-- The embedding pass: one `un_index` chunk per deduplicated triple, then
the `chunk_text(..., 1800, 200)` chunks of every guide row, each with the
SHA-256 hex digest of its content. -/
def mkEmbChunks (sid : Nat) (unSet : List ((Str × Str × Str) × Nat))
    (gRows : List GuideTextRow) : List EmbChunkRow :=
  unSet.map (fun ob =>
    let content := unChunkContent ob.1
    ⟨sid, str "un_index", some ob.2, some ob.1.2.1, some ob.1.1, content, sha256HexOfStr content⟩) ++
    gRows.flatMap (fun g =>
      (chunk_text g.content 1800 200).map (fun ch =>
        ⟨sid, str "guide_text", none, some g.guideNumber, none, ch, sha256HexOfStr ch⟩))

/-- The write phase of a (fresh or forced) ingestion run. -/
def ingestWrite (db : ErgDb) (doc : ExtractionDoc) (versionTag pdfName : Str)
    (buildEmbeddings : Bool) : IngestResult × ErgDb :=
  let sid := db.nextId
  let source : SourceDocRow := ⟨sid, versionTag, str "en", pdfName, doc.fileSha⟩
  let pageRows := doc.pages.map (fun p => PageRow.mk sid p.page none p.text)
  let gst := doc.pages.foldl guideScanStep ⟨[], [], none⟩
  let unSet := unIndexSetOf doc
  let tableRows := doc.tables.map (fun t => TableRow.mk sid t.page t.tableNumber t.nonEmptyCells t.data)
  let unRows := unSet.map (fun ob => UnIndexRow.mk sid ob.1.1 ob.1.2.1 ob.1.2.2 ob.2)
  let gRows := guideRowsOf sid gst
  let embRows := if buildEmbeddings then mkEmbChunks sid unSet gRows else []
  (.completed sid pageRows.length tableRows.length unRows.length gRows.length embRows.length,
    { sourceDocs := db.sourceDocs ++ [source],
      pages := db.pages ++ pageRows,
      tables := db.tables ++ tableRows,
      unIndex := db.unIndex ++ unRows,
      guideTexts := db.guideTexts ++ gRows,
      embChunks := db.embChunks ++ embRows,
      nextId := db.nextId + 1 })

/-- `ingest_from_extraction(db, extraction_dir, force)` as a pure state
transformer.  `summary = none` models a missing summary file; an empty
document list is the malformed-summary error; both abort before any
write.  An existing version tag without `force` returns SKIPPED with the
existing id and an unchanged store. -/
def ingest_from_extraction (db : ErgDb) (summary : Option (List ExtractionDoc))
    (force buildEmbeddings : Bool) : Except Str (IngestResult × ErgDb) :=
  match summary with
  | none => .error (str "extraction_summary.json not found")
  | some [] => .error (str "extraction_summary.json is not a list or is empty")
  | some (doc :: _) =>
    let pdfName := orElseStr doc.filename (str "ERG2024")
    let versionTag := orElseStr doc.title pdfName
    match latestSourceDoc db versionTag with
    | some ex =>
      if force then
        .ok (ingestWrite (deleteSourceDocument db ex.id) doc versionTag pdfName buildEmbeddings)
      else
        .ok (.skipped (str "Source document already ingested: " ++ versionTag) ex.id, db)
    | none => .ok (ingestWrite db doc versionTag pdfName buildEmbeddings)

/-! ## The fallback retrieval engine (erg_search in main.py, SQLite branch)

The engine is modelled from the point where the query vector
`qvec = embed_text(q)` has been computed: scores are exact dot products of
the query vector with each decodable stored embedding (a row whose
embedding is `none` models a NULL / undecodable value and is skipped).
Python's stable in-place sort is modelled by a stable insertion sort (any
two stable sorts under the same total preorder agree); the anchor set is
modelled as a first-occurrence-ordered list (Python set iteration order is
unspecified; the theorems below are order-insensitive). -/

/-- One fetched `erg_embedding_chunk` row of the fallback query. -/
structure SearchRow where
  chunkType : Str
  guideNumber : Option Str
  unOrNa : Option Str
  pageNumber : Option Int
  content : Str
  embedding : Option (List ℚ)
deriving DecidableEq, Repr

/-- The dedup identity `(chunk_type, guide_number, un_or_na, page_number, content)`. -/
abbrev SearchKey := Str × Option Str × Option Str × Option Int × Str

/-- The dedup key of a row. -/
def rowKey (r : SearchRow) : SearchKey :=
  (r.chunkType, r.guideNumber, r.unOrNa, r.pageNumber, r.content)

/-- Exact rational multiplication in a kernel-computable form (the
library's `Rat.mul` is sealed against unfolding; `mkRat` normalises). -/
def qMul (a b : ℚ) : ℚ := mkRat (a.num * b.num) (a.den * b.den)

/-- Exact rational addition in a kernel-computable form. -/
def qAdd (a b : ℚ) : ℚ := mkRat (a.num * (b.den : ℤ) + b.num * (a.den : ℤ)) (a.den * b.den)

/-- Strict order on rationals, as the library's computable comparison. -/
def qLt (a b : ℚ) : Bool := Rat.blt a b

/-- Non-strict order on rationals, as the library's computable comparison. -/
def qLe (a b : ℚ) : Bool := !(Rat.blt b a)

/-- `_dot`: the dot product over the common length. -/
def dotQ (a b : List ℚ) : ℚ := (List.zipWith qMul a b).foldr qAdd 0

/-- Python truthiness of a nullable string. -/
def truthy (o : Option Str) : Bool :=
  match o with
  | some s => s ≠ []
  | none => false

/-- Insert into a descending scored list, after entries of equal score. -/
def insertScoredDesc (x : ℚ × SearchRow) : List (ℚ × SearchRow) → List (ℚ × SearchRow)
  | [] => [x]
  | y :: ys => if qLt y.1 x.1 then x :: y :: ys else y :: insertScoredDesc x ys

/-- Stable descending sort by score (`list.sort(key=score, reverse=True)`). -/
def sortScoredDesc (l : List (ℚ × SearchRow)) : List (ℚ × SearchRow) :=
  l.foldl (fun acc x => insertScoredDesc x acc) []

/-- The scored candidate set: every row with a decodable embedding, paired
with its dot-product score, in fetch order. -/
def ergScored (qvec : List ℚ) (rows : List SearchRow) : List (ℚ × SearchRow) :=
  rows.filterMap (fun r => r.embedding.map (fun v => (dotQ qvec v, r)))

/-- The anchor guides: guide numbers of the top-5 `un_index` candidates
(with truthy guide numbers) scoring at least 0.15, first occurrences
first. -/
def ergAnchors (qvec : List ℚ) (rows : List SearchRow) : List Str :=
  let unIndexScored := sortScoredDesc ((ergScored qvec rows).filter
    (fun sr => sr.2.chunkType = str "un_index" ∧ truthy sr.2.guideNumber))
  dedupFirst (((unIndexScored.take 5).filter (fun sr => qLe (mkRat 15 100) sr.1)).filterMap
    (fun sr => sr.2.guideNumber))

/-- Anchor boosting: +0.60 to `guide_text` rows and +0.20 to `un_index`
rows whose guide number is an anchor (applied only when there is at least
one anchor). -/
def ergBoosted (qvec : List ℚ) (rows : List SearchRow) : List (ℚ × SearchRow) :=
  let scored := ergScored qvec rows
  let anchors := ergAnchors qvec rows
  if anchors = [] then scored
  else
    scored.map (fun sr =>
      match sr.2.guideNumber with
      | some g =>
        if sr.2.chunkType = str "guide_text" ∧ g ∈ anchors then (qAdd sr.1 (mkRat 60 100), sr.2)
        else if sr.2.chunkType = str "un_index" ∧ g ∈ anchors then (qAdd sr.1 (mkRat 20 100), sr.2)
        else sr
      | none => sr)

/-- The candidate list after boosting and the stable descending re-sort. -/
def ergSortedBoosted (qvec : List ℚ) (rows : List SearchRow) : List (ℚ × SearchRow) :=
  sortScoredDesc (ergBoosted qvec rows)

/-- One anchor of the guarantee pass: find the best (= first in the
sorted list) `guide_text` entry of the anchor guide and append it unless
its dedup key is already seen. -/
def ergPrependStep (sorted : List (ℚ × SearchRow))
    (st : List (ℚ × SearchRow) × List SearchKey) (g : Str) :
    List (ℚ × SearchRow) × List SearchKey :=
  match sorted.find? (fun sr => sr.2.chunkType = str "guide_text" ∧ sr.2.guideNumber = some g) with
  | some best =>
    if rowKey best.2 ∈ st.2 then st else (st.1 ++ [best], st.2 ++ [rowKey best.2])
  | none => st

/-- The per-anchor guarantee pass over all anchors. -/
def ergAnchorPrepends (sorted : List (ℚ × SearchRow)) (anchors : List Str) :
    List (ℚ × SearchRow) × List SearchKey :=
  anchors.foldl (ergPrependStep sorted) ([], [])

/-- The fill loop: walk the sorted candidates, skip seen keys, append until
`k` results have been collected (the length check follows the append). -/
def ergFill (k : Nat) : List (ℚ × SearchRow) → List SearchKey → List (ℚ × SearchRow) →
    List (ℚ × SearchRow)
  | [], _, res => res
  | sr :: rest, seen, res =>
    if rowKey sr.2 ∈ seen then ergFill k rest seen res
    else if k ≤ (res ++ [sr]).length then res ++ [sr]
    else ergFill k rest (rowKey sr.2 :: seen) (res ++ [sr])

/-- The fallback branch of `erg_search(q, k)` from the computed query
vector: anchor prepends, then the fill loop, then truncation to `k`. -/
def erg_search_fallback (qvec : List ℚ) (k : Nat) (rows : List SearchRow) :
    List (ℚ × SearchRow) :=
  let sorted := ergSortedBoosted qvec rows
  let pre := ergAnchorPrepends sorted (ergAnchors qvec rows)
  (ergFill k sorted pre.2 pre.1).take k

/-! ## The ERG API endpoints (erg_api.py)

`_log_lookup`, `search_materials`, `get_material` and `quick_lookup` over
an in-memory store.  A failing audit write (`commitFails = true`) models
any exception raised while inserting or committing the `ErgLookupLog` row:
the handler catches it and rolls back, so the pending row is discarded and
the store is unchanged.  SQL LIKE/ILIKE on wildcard-free operands is
modelled as (case-sensitive / case-insensitive) substring containment. -/

/-- An `erg_materials` row (columns read by the modelled endpoints). -/
structure ErgMaterial where
  unNumber : Str
  naNumber : Option Str
  name : Str
  alternateNames : List Str
  guideNumber : Nat
  hazardClass : Str
  division : Option Str
  packingGroup : Option Str
  isTih : Bool
  isWaterReactive : Bool
  polymerizationHazard : Bool
deriving DecidableEq, Repr

/-- An `erg_guides` row (columns read by the modelled endpoints). -/
structure ErgGuideRow where
  guideNumber : Nat
  title : Str
  color : Option Str
  initialIsolationMeters : Option Int
  initialIsolationFeet : Option Int
  fireIsolationMeters : Option Int
  fireIsolationFeet : Option Int
deriving DecidableEq, Repr

/-- An `erg_protective_distances` row (protective-action columns). -/
structure ProtectiveDistanceRow where
  unNumber : Str
  materialName : Option Str
  smallDayProtectKm : Option ℚ
  smallDayProtectMiles : Option ℚ
  smallNightProtectKm : Option ℚ
  smallNightProtectMiles : Option ℚ
  largeDayProtectKm : Option ℚ
  largeDayProtectMiles : Option ℚ
  largeNightProtectKm : Option ℚ
  largeNightProtectMiles : Option ℚ
deriving DecidableEq, Repr

/-- An `erg_lookup_logs` row (columns set by `_log_lookup`). -/
structure LookupLogRow where
  lookupType : Str
  searchQuery : Str
  unNumber : Option Str
  guideNumber : Option Nat
  resultsCount : Nat
  isEmergency : Bool
deriving DecidableEq, Repr

/-- The API-side store. -/
structure ApiDb where
  materials : List ErgMaterial
  guides : List ErgGuideRow
  distances : List ProtectiveDistanceRow
  lookupLogs : List LookupLogRow
deriving DecidableEq, Repr

/-- `_log_lookup`: add the row and commit; on any exception, roll back
(discarding the pending row) and return normally. -/
def logLookup (db : ApiDb) (row : LookupLogRow) (commitFails : Bool) : ApiDb :=
  if commitFails then db else { db with lookupLogs := db.lookupLogs ++ [row] }

/-- `LIKE '%q%'` on a wildcard-free operand. -/
def likeContains (value q : Str) : Bool := decide (q <:+: value)

/-- `ILIKE '%q%'` on a wildcard-free operand (ASCII case folding). -/
def ilikeContains (value q : Str) : Bool := decide (pyLower q <:+: pyLower value)

/-- One entry of the `search_materials` response list. -/
structure MaterialSummary where
  unNumber : Str
  name : Str
  guide : Nat
  hazardClass : Str
  isTih : Bool
  isWaterReactive : Bool
deriving DecidableEq, Repr

/-- `GET /materials/search`: filter by UN-number LIKE or name ILIKE, then
the optional hazard-class prefix filter (skipped for an empty string, which
is falsy in Python) and the TIH filter; truncate to `limit`; log; return
the summaries. -/
def search_materials (db : ApiDb) (q : Str) (limit : Nat) (hazardClass : Option Str)
    (tihOnly commitFails : Bool) : List MaterialSummary × ApiDb :=
  let base : List ErgMaterial :=
    db.materials.filter (fun m => likeContains m.unNumber q || ilikeContains m.name q)
  let base2 : List ErgMaterial :=
    match hazardClass with
    | some hc => if hc ≠ [] then base.filter (fun m => hc.isPrefixOf m.hazardClass) else base
    | none => base
  let base3 : List ErgMaterial := if tihOnly then base2.filter (fun m => m.isTih) else base2
  let rows := base3.take limit
  let db2 := logLookup db ⟨str "material", q, none, none, rows.length, false⟩ commitFails
  (rows.map (fun m =>
    ⟨m.unNumber, m.name, m.guideNumber, m.hazardClass, m.isTih, m.isWaterReactive⟩), db2)

/-- The response of `GET /materials/{un_number}` (success case): the
material with its guide and, for TIH materials, the protective distances. -/
structure GetMaterialResp where
  material : ErgMaterial
  guide : Option ErgGuideRow
  protectiveDistances : Option ProtectiveDistanceRow
deriving DecidableEq, Repr

/-- `GET /materials/{un_number}`: normalise (`upper`, drop `"UN"`), then
the first matching material or a 404 error; the audit write happens only
on the success path. -/
def get_material (db : ApiDb) (unNumber : Str) (commitFails : Bool) :
    Except (Nat × Str) GetMaterialResp × ApiDb :=
  let un := pyReplace (pyUpper unNumber) (str "UN") []
  match db.materials.find? (fun m => m.unNumber = un) with
  | none => (.error (404, str "Material UN" ++ unNumber ++ str " not found"), db)
  | some material =>
    let guide := db.guides.find? (fun g => g.guideNumber = material.guideNumber)
    let protective :=
      if material.isTih then db.distances.find? (fun d => d.unNumber = material.unNumber)
      else none
    let db2 := logLookup db
      ⟨str "material", unNumber, some material.unNumber, some material.guideNumber, 1, false⟩
      commitFails
    (.ok ⟨material, guide, protective⟩, db2)

/-- The unknown-material fallback response of the quick-lookup endpoint. -/
structure QuickUnknownResp where
  status : Str
  guide : Nat
  guideTitle : Str
  isolateMeters : Nat
  isolateFeet : Nat
  fireIsolateMeters : Nat
  immediateActions : List Str
  callChemtrec : Str
  guideDetails : Option ErgGuideRow
deriving DecidableEq, Repr

/-- The known-material response of the quick-lookup endpoint
(`protectKm`/`protectMiles`: `none` = key absent, `some v` = key present
with the nullable column value). -/
structure QuickKnownResp where
  unNumber : Str
  name : Str
  guide : Nat
  guideTitle : Str
  hazardClass : Str
  isTih : Bool
  isolateMeters : Option Int
  isolateFeet : Option Int
  fireIsolateMeters : Option Int
  callChemtrec : Str
  protectKm : Option (Option ℚ)
  protectMiles : Option (Option ℚ)
deriving DecidableEq, Repr

/-- The two response shapes of `GET /materials/un/{un_number}/quick`. -/
inductive QuickResp
  | unknown (r : QuickUnknownResp)
  | known (r : QuickKnownResp)
deriving DecidableEq, Repr

/-- `GET /materials/un/{un_number}/quick`: normalise (drop `"UN"`, no
upper-casing here); an unknown material returns the guide-111 fallback
response (no audit write); a known material returns its guide data, with
protective-action distances for TIH materials, and logs an emergency
lookup. -/
def quick_lookup (db : ApiDb) (unNumber spillSize timeOfDay : Str) (commitFails : Bool) :
    QuickResp × ApiDb :=
  let un := pyReplace unNumber (str "UN") []
  match db.materials.find? (fun m => m.unNumber = un) with
  | none =>
    let guide := db.guides.find? (fun g => g.guideNumber = 111)
    (.unknown ⟨str "UNKNOWN_MATERIAL", 111, str "Mixed Load/Unidentified Cargo", 100, 330, 800,
      [str "ISOLATE 100m (330 ft) in all directions",
       str "Call CHEMTREC: 1-800-424-9300",
       str "Wear SCBA and protective equipment",
       str "Eliminate ignition sources"],
      str "1-800-424-9300", guide⟩, db)
  | some material =>
    let guide := db.guides.find? (fun g => g.guideNumber = material.guideNumber)
    let base : QuickKnownResp :=
      { unNumber := material.unNumber
        name := material.name
        guide := material.guideNumber
        guideTitle := match guide with | some g => g.title | none => str "Unknown"
        hazardClass := material.hazardClass
        isTih := material.isTih
        isolateMeters := match guide with | some g => g.initialIsolationMeters | none => some 100
        isolateFeet := match guide with | some g => g.initialIsolationFeet | none => some 330
        fireIsolateMeters := match guide with | some g => g.fireIsolationMeters | none => some 800
        callChemtrec := str "1-800-424-9300"
        protectKm := none
        protectMiles := none }
    let resp :=
      if material.isTih then
        match db.distances.find? (fun d => d.unNumber = material.unNumber) with
        | some pd =>
          if spillSize = str "small" then
            if timeOfDay = str "day" then
              { base with protectKm := some pd.smallDayProtectKm,
                          protectMiles := some pd.smallDayProtectMiles }
            else
              { base with protectKm := some pd.smallNightProtectKm,
                          protectMiles := some pd.smallNightProtectMiles }
          else
            if timeOfDay = str "day" then
              { base with protectKm := some pd.largeDayProtectKm,
                          protectMiles := some pd.largeDayProtectMiles }
            else
              { base with protectKm := some pd.largeNightProtectKm,
                          protectMiles := some pd.largeNightProtectMiles }
        | none => base
      else base
    let db2 := logLookup db
      ⟨str "quick", unNumber, some material.unNumber, some material.guideNumber, 1, true⟩
      commitFails
    (.known resp, db2)

/-! ## Concrete instances used by the theorems below -/

/-- Two tokens whose SHA-256 buckets coincide (index 665 modulo 768) with
opposite signs: their contributions cancel. -/
def embCancelText : Str := str "am bj"

/-- The query vector of the retrieval counterexample (a rational stand-in
for a computed embedding; the engine is uniform in the query vector). -/
def c1qvec : List ℚ := [1]

/-- Candidate rows for the retrieval counterexample: two strong `un_index`
rows (two anchors) and one `guide_text` row per anchor guide. -/
def c1rows : List SearchRow :=
  [⟨str "un_index", some (str "128"), some (str "1203"), none, str "UN1203 GUIDE128 GASOLINE", some [1]⟩,
   ⟨str "un_index", some (str "111"), some (str "1993"), none, str "UN1993 GUIDE111 CARGO", some [mkRat 9 10]⟩,
   ⟨str "guide_text", some (str "128"), none, none, str "guide 128 prose", some [mkRat 1 2]⟩,
   ⟨str "guide_text", some (str "111"), none, none, str "guide 111 prose", some [mkRat 2 5]⟩]

/-- The newline-broken filler string `z(\nz)^n` (length `2n+1`): single
newlines keep it one paragraph of the chunker (which splits only on blank
lines) while every position of the regex scans fails immediately. -/
def zrun : Nat → Str
  | 0 => ['z']
  | n + 1 => 'z' :: '\n' :: zrun n

/-- Chunker counterexample input: three paragraphs of lengths 1799, 1601
and 11.  No paragraph exceeds `max_chars = 1800`, but the second emitted
chunk (the 199-character remainder of the stripped overlap seed, the
separator, and the second paragraph) has length 1802. -/
def c3text : Str := zrun 899 ++ paraSep ++ zrun 800 ++ paraSep ++ zrun 5

/-- Ingestion witness input: the same UN-index triple observed on two
pages and twice in one table (the table's row repeats, so the triplet
scan and the blob line parse each see it twice before any dedup). -/
def c6doc : ExtractionDoc :=
  ⟨some (str "ERG2024"), none, none,
    [⟨10, str "1005 125 Ammonia"⟩, ⟨11, str "1005 125 Ammonia"⟩],
    [⟨12, 1, 6, [[str "1005", str "125", str "Ammonia"],
                 [str "1005", str "125", str "Ammonia"]]⟩]⟩

/-- The result of ingesting `c6doc` into the empty store. -/
def c6pair : IngestResult × ErgDb :=
  match ingest_from_extraction ErgDb.empty (some [c6doc]) false false with
  | .ok p => p
  | .error _ => (.skipped [] 0, ErgDb.empty)

/-- The 1791-character filler paragraph shared by the two guide pages of
the embedding-duplication counterexample. -/
def zfill : Str := zrun 895

/-- The extraction input of the embedding-duplication counterexample:
two Orange-section guides, each a header page followed by a continuation
page holding the same filler paragraph.  Each guide's text chunks as
`[header, zfill]` (the header-plus-filler buffer would exceed 1800
characters), so the filler chunk is embedded once per guide. -/
def c7doc : ExtractionDoc :=
  ⟨some (str "ERG2024"), none, none,
    [⟨150, str "GUIDE 123"⟩, ⟨151, zfill⟩, ⟨152, str "GUIDE 124"⟩, ⟨153, zfill⟩], []⟩

/-- A store already holding a source document with version tag
`"ERG2024"`. -/
def c4db : ErgDb :=
  { ErgDb.empty with
    sourceDocs := [⟨5, str "ERG2024", str "en", str "ERG2024", none⟩], nextId := 6 }

/-- An extraction input deriving the version tag `"ERG2024"`. -/
def c4doc : ExtractionDoc := ⟨some (str "ERG2024"), none, none, [⟨1, str "hello"⟩], []⟩

/-- The empty API store. -/
def apiDbEmpty : ApiDb := ⟨[], [], [], []⟩

/-! ## Theorems -/

set_option maxRecDepth 8000 in
/-- The SHA-256 model reproduces the standard test vector for "abc". -/
theorem sha256_abc_test_vector :
    sha256 (utf8Encode (str "abc")) =
      [186, 120, 22, 191, 143, 1, 207, 234, 65, 65, 64, 222, 93, 174, 34, 35,
       176, 3, 97, 163, 150, 23, 122, 156, 180, 16, 255, 97, 242, 0, 21, 173] := by
  decide

set_option maxRecDepth 8000 in
/-- The SHA-256 model reproduces the standard test vector for the empty
message. -/
theorem sha256_empty_test_vector :
    sha256 [] =
      [227, 176, 196, 66, 152, 252, 28, 20, 154, 251, 244, 200, 153, 111, 185, 36,
       39, 174, 65, 228, 100, 155, 147, 76, 164, 149, 153, 27, 120, 82, 184, 85] := by
  decide

/-- C8: the embedding provider is deterministic — two calls with identical
input text and identical dimension return the identical vector; the model
is a pure function of its two arguments and of nothing else. -/
theorem embed_text_local_hash_deterministic (t₁ t₂ : Str) (d₁ d₂ : Nat)
    (ht : t₁ = t₂) (hd : d₁ = d₂) :
    embed_text_local_hash t₁ d₁ = embed_text_local_hash t₂ d₂ := by
  subst ht; subst hd; rfl

/-- Witness for C8 at the query "gasoline" with the default dimension. -/
theorem embed_text_local_hash_deterministic_witness :
    embed_text_local_hash (str "gasoline") 768 = embed_text_local_hash (str "gasoline") 768 :=
  embed_text_local_hash_deterministic (str "gasoline") (str "gasoline") 768 768 rfl rfl

/-- C9: a failing audit-log write never fails the primary read.  For the
material search, the material lookup and the quick lookup, the response is
the same whether or not the `ErgLookupLog` insert/commit raises, and on
failure the rollback leaves every stored row unchanged. -/
theorem audit_log_failure_preserves_reads (db : ApiDb) (q : Str) (limit : Nat)
    (hc : Option Str) (tih : Bool) (un sp tm : Str) :
    (search_materials db q limit hc tih true).1 = (search_materials db q limit hc tih false).1 ∧
    (search_materials db q limit hc tih true).2 = db ∧
    (get_material db un true).1 = (get_material db un false).1 ∧
    (get_material db un true).2 = db ∧
    (quick_lookup db un sp tm true).1 = (quick_lookup db un sp tm false).1 ∧
    (quick_lookup db un sp tm true).2 = db := by
  refine ⟨rfl, ?_, ?_, ?_, ?_, ?_⟩
  · simp only [search_materials, logLookup, if_pos]
  · unfold get_material
    cases h : db.materials.find? (fun m => m.unNumber = pyReplace (pyUpper un) (str "UN") []) <;>
      simp [h, logLookup]
  · unfold get_material
    cases h : db.materials.find? (fun m => m.unNumber = pyReplace (pyUpper un) (str "UN") []) <;>
      simp [h, logLookup]
  · unfold quick_lookup
    cases h : db.materials.find? (fun m => m.unNumber = pyReplace un (str "UN") []) <;>
      simp [h, logLookup]
  · unfold quick_lookup
    cases h : db.materials.find? (fun m => m.unNumber = pyReplace un (str "UN") []) <;>
      simp [h, logLookup]

/-- C10: the quick-lookup endpoint never reports NotFound.  For a UN
number matching no material row it returns the successful
`UNKNOWN_MATERIAL` fallback — guide 111 ("Mixed Load/Unidentified Cargo"),
100-metre isolation, emergency-contact instructions — while the plain
material-lookup endpoint raises 404 for the same unknown UN number. -/
theorem quick_lookup_unknown_fallback (db : ApiDb) (un sp tm : Str) (cf : Bool)
    (hq : db.materials.find? (fun m => m.unNumber = pyReplace un (str "UN") []) = none)
    (hg : db.materials.find? (fun m => m.unNumber = pyReplace (pyUpper un) (str "UN") []) = none) :
    (∃ r, (quick_lookup db un sp tm cf).1 = .unknown r ∧
      r.status = str "UNKNOWN_MATERIAL" ∧
      r.guide = 111 ∧
      r.guideTitle = str "Mixed Load/Unidentified Cargo" ∧
      r.isolateMeters = 100 ∧
      r.callChemtrec = str "1-800-424-9300" ∧
      r.immediateActions =
        [str "ISOLATE 100m (330 ft) in all directions",
         str "Call CHEMTREC: 1-800-424-9300",
         str "Wear SCBA and protective equipment",
         str "Eliminate ignition sources"] ∧
      (quick_lookup db un sp tm cf).2 = db) ∧
    (∃ msg, (get_material db un cf).1 = .error (404, msg)) := by
  constructor
  · unfold quick_lookup
    simp only [hq]
    exact ⟨_, rfl, rfl, rfl, rfl, rfl, rfl, rfl, trivial⟩
  · unfold get_material
    simp only [hg]
    exact ⟨_, rfl⟩

/-- Witness for C10: the empty store and UN number 1234. -/
theorem quick_lookup_unknown_fallback_witness :
    (∃ r, (quick_lookup apiDbEmpty (str "1234") (str "large") (str "day") false).1 = .unknown r ∧
      r.status = str "UNKNOWN_MATERIAL" ∧
      r.guide = 111 ∧
      r.guideTitle = str "Mixed Load/Unidentified Cargo" ∧
      r.isolateMeters = 100 ∧
      r.callChemtrec = str "1-800-424-9300" ∧
      r.immediateActions =
        [str "ISOLATE 100m (330 ft) in all directions",
         str "Call CHEMTREC: 1-800-424-9300",
         str "Wear SCBA and protective equipment",
         str "Eliminate ignition sources"] ∧
      (quick_lookup apiDbEmpty (str "1234") (str "large") (str "day") false).2 = apiDbEmpty) ∧
    (∃ msg, (get_material apiDbEmpty (str "1234") false).1 = .error (404, msg)) :=
  quick_lookup_unknown_fallback apiDbEmpty (str "1234") (str "large") (str "day") false rfl rfl

/-- C4: ingesting an extraction whose derived version tag already exists,
with `force = false`, returns SKIPPED carrying the existing document's id
and performs no writes — the returned store is the input store. -/
theorem ingest_skipped_no_writes (db : ErgDb) (doc : ExtractionDoc)
    (docs : List ExtractionDoc) (bE : Bool) (ex : SourceDocRow)
    (hex : latestSourceDoc db (versionTagOf doc) = some ex) :
    ingest_from_extraction db (some (doc :: docs)) false bE =
      .ok (.skipped (str "Source document already ingested: " ++ versionTagOf doc) ex.id, db) := by
  have hex2 : latestSourceDoc db (orElseStr doc.title (orElseStr doc.filename (str "ERG2024"))) =
      some ex := hex
  unfold ingest_from_extraction
  simp only [hex2]
  rfl

/-- Witness for C4: a store holding version tag "ERG2024" (id 5) and an
extraction input deriving the same tag. -/
theorem ingest_skipped_no_writes_witness :
    latestSourceDoc c4db (versionTagOf c4doc) =
      some ⟨5, str "ERG2024", str "en", str "ERG2024", none⟩ ∧
    ingest_from_extraction c4db (some [c4doc]) false true =
      .ok (.skipped (str "Source document already ingested: " ++ versionTagOf c4doc) 5, c4db) :=
  ⟨by decide, ingest_skipped_no_writes c4db c4doc [] true
    ⟨5, str "ERG2024", str "en", str "ERG2024", none⟩ (by decide)⟩

/-- The accumulated vector always has length `dim`. -/
theorem rawVec_length (text : Str) (dim : Nat) : (rawVec text dim).length = dim := by
  unfold rawVec
  have h : ∀ (l : List Str) (v : List ℤ),
      (l.foldl (fun v t =>
        let idx := tokIndex t dim
        v.set idx (v.getD idx 0 + tokSign t)) v).length = v.length := by
    intro l
    induction l with
    | nil => intro v; rfl
    | cons t ts ih => intro v; rw [List.foldl_cons, ih]; simp
  rw [h]
  simp

/-- Unfolding of `sumSq` on a cons cell. -/
theorem sumSq_cons (x : ℤ) (xs : List ℤ) : sumSq (x :: xs) = x * x + sumSq xs := by
  simp [sumSq]

/-- The sum of squares is nonnegative. -/
theorem sumSq_nonneg (v : List ℤ) : 0 ≤ sumSq v := by
  induction v with
  | nil => simp [sumSq]
  | cons x xs ih => rw [sumSq_cons]; exact add_nonneg (mul_self_nonneg x) ih

/-- The zero vector has vanishing sum of squares. -/
theorem sumSq_replicate_zero (n : Nat) : sumSq (List.replicate n (0 : ℤ)) = 0 := by
  induction n with
  | zero => rfl
  | succ m ih => rw [List.replicate_succ, sumSq_cons]; simpa using ih

/-- A vector with vanishing sum of squares is identically zero. -/
theorem sumSq_zero_all (v : List ℤ) (h : sumSq v = 0) : ∀ x ∈ v, x = 0 := by
  induction v with
  | nil => intro x hx; cases hx
  | cons y ys ih =>
    rw [sumSq_cons] at h
    have hy2 : 0 ≤ y * y := mul_self_nonneg y
    have hs : 0 ≤ sumSq ys := sumSq_nonneg ys
    have hy : y * y = 0 := by omega
    have hrest : sumSq ys = 0 := by omega
    intro x hx
    rcases List.mem_cons.mp hx with hx | hx
    · subst hx; exact mul_self_eq_zero.mp hy
    · exact ih hrest x hx

/-- Squared norm of an integer vector scaled by `1/c`: `sumSq v / c²`
(with the Lean convention `x / 0 = 0`, the identity also holds at zero). -/
theorem l2normSq_map_div (v : List ℤ) (c : ℝ) :
    l2normSq (v.map (fun x : ℤ => (x : ℝ) / c)) = ((sumSq v : ℤ) : ℝ) / (c * c) := by
  induction v with
  | nil => simp [l2normSq, sumSq]
  | cons x xs ih =>
    simp only [List.map_cons, l2normSq, List.sum_cons, sumSq_cons] at ih ⊢
    rw [ih]
    push_cast
    rw [div_mul_div_comm, add_div]

/-- The element-wise real cast of the zero vector is the zero vector. -/
theorem map_cast_replicate_zero (n : Nat) :
    (List.replicate n (0 : ℤ)).map (fun x : ℤ => (x : ℝ)) = List.replicate n (0 : ℝ) := by
  simp

/-- C2 (amended): for a non-empty tokenized input whose accumulated
hashed bag-of-words vector is nonzero, the returned vector has unit L2
norm; when there are no tokens — or when the signed token contributions
cancel to the zero vector — the zero vector of length `dim` is returned;
the returned vector always has length `dim`. -/
theorem embed_unit_norm_unless_cancellation (text : Str) (dim : Nat) :
    (pyTokenize text ≠ [] → sumSq (rawVec text dim) ≠ 0 →
      l2normSq (embed_text_local_hash text dim) = 1) ∧
    ((pyTokenize text = [] ∨ sumSq (rawVec text dim) = 0) →
      embed_text_local_hash text dim = List.replicate dim (0 : ℝ)) ∧
    (embed_text_local_hash text dim).length = dim := by
  have hvz : sumSq (rawVec text dim) = 0 →
      (rawVec text dim).map (fun x : ℤ => (x : ℝ)) = List.replicate dim (0 : ℝ) := by
    intro h
    have hall := sumSq_zero_all _ h
    have hrep : rawVec text dim = List.replicate dim (0 : ℤ) :=
      List.eq_replicate_iff.mpr ⟨rawVec_length text dim, hall⟩
    rw [hrep, map_cast_replicate_zero]
  by_cases htok : pyTokenize text = []
  · have hS : sumSq (rawVec text dim) = 0 := by
      have hrep : rawVec text dim = List.replicate dim 0 := by
        unfold rawVec; rw [htok]; rfl
      rw [hrep, sumSq_replicate_zero]
    have he : embed_text_local_hash text dim = List.replicate dim (0 : ℝ) := by
      unfold embed_text_local_hash
      rw [if_pos htok]
      exact hvz hS
    refine ⟨fun h => absurd htok h, fun _ => he, ?_⟩
    rw [he, List.length_replicate]
  · by_cases hS : sumSq (rawVec text dim) = 0
    · have he : embed_text_local_hash text dim = List.replicate dim (0 : ℝ) := by
        unfold embed_text_local_hash
        rw [if_neg htok]
        have hc : ((sumSq (rawVec text dim) : ℤ) : ℝ) = 0 := by rw [hS]; norm_num
        rw [hc, Real.sqrt_zero, if_neg (lt_irrefl 0)]
        exact hvz hS
      refine ⟨fun _ h => absurd hS h, fun _ => he, ?_⟩
      rw [he, List.length_replicate]
    · have hSpos : (0 : ℝ) < ((sumSq (rawVec text dim) : ℤ) : ℝ) := by
        have h0 := sumSq_nonneg (rawVec text dim)
        have h1 : (0 : ℤ) < sumSq (rawVec text dim) := lt_of_le_of_ne h0 (Ne.symm hS)
        exact_mod_cast h1
      have hnpos : 0 < Real.sqrt ((sumSq (rawVec text dim) : ℤ) : ℝ) :=
        Real.sqrt_pos.mpr hSpos
      have he : embed_text_local_hash text dim =
          (rawVec text dim).map
            (fun x : ℤ => (x : ℝ) / Real.sqrt ((sumSq (rawVec text dim) : ℤ) : ℝ)) := by
        unfold embed_text_local_hash
        rw [if_neg htok, if_pos hnpos]
      refine ⟨fun _ _ => ?_, fun h => ?_, ?_⟩
      · rw [he, l2normSq_map_div,
          Real.mul_self_sqrt (le_of_lt hSpos), div_self (ne_of_gt hSpos)]
      · rcases h with h | h
        · exact absurd h htok
        · exact absurd h hS
      · rw [he, List.length_map, rawVec_length]

set_option maxRecDepth 8000 in
/-- Counterexample to C2 as stated: the input "am bj" tokenizes to two
tokens, yet the two hashed contributions land in the same bucket with
opposite signs, so the embedding provider returns the zero vector — not a
unit-norm vector. -/
theorem embed_nonempty_tokens_zero_vector_cex :
    pyTokenize embCancelText ≠ [] ∧
    embed_text_local_hash embCancelText 768 = List.replicate 768 (0 : ℝ) ∧
    l2normSq (embed_text_local_hash embCancelText 768) ≠ 1 := by
  have hv : rawVec embCancelText 768 = List.replicate 768 0 := by decide
  have htok : pyTokenize embCancelText ≠ [] := by decide
  have hS : ((sumSq (rawVec embCancelText 768) : ℤ) : ℝ) = 0 := by
    rw [hv, sumSq_replicate_zero]
    norm_num
  have he : embed_text_local_hash embCancelText 768 = List.replicate 768 (0 : ℝ) := by
    unfold embed_text_local_hash
    rw [if_neg htok, hS, Real.sqrt_zero, if_neg (lt_irrefl 0), hv, map_cast_replicate_zero]
  refine ⟨htok, he, ?_⟩
  rw [he]
  have hz : l2normSq (List.replicate 768 (0 : ℝ)) = 0 := by
    simp [l2normSq]
  rw [hz]
  norm_num

set_option maxRecDepth 8000 in
/-- Witness for C2 (amended) at a two-token query with nonzero
accumulated vector. -/
theorem embed_unit_norm_unless_cancellation_witness :
    pyTokenize (str "gasoline emergency") ≠ [] ∧
    sumSq (rawVec (str "gasoline emergency") 4) ≠ 0 ∧
    l2normSq (embed_text_local_hash (str "gasoline emergency") 4) = 1 :=
  ⟨by decide, by decide,
    (embed_unit_norm_unless_cancellation (str "gasoline emergency") 4).1
      (by decide) (by decide)⟩

/-- Deduplication only drops elements: members come from the input. -/
theorem dedupFirstAux_subset [DecidableEq α] (seen : List α) (l : List α) :
    ∀ x ∈ dedupFirstAux seen l, x ∈ l := by
  induction l generalizing seen with
  | nil => intro x hx; cases hx
  | cons y ys ih =>
    intro x hx
    unfold dedupFirstAux at hx
    split at hx
    · exact List.mem_cons_of_mem y (ih seen x hx)
    · rcases List.mem_cons.mp hx with h | h
      · exact h ▸ List.mem_cons_self y ys
      · exact List.mem_cons_of_mem y (ih (y :: seen) x h)

/-- Members of `dedupFirst l` are members of `l`. -/
theorem dedupFirst_subset [DecidableEq α] (l : List α) :
    ∀ x ∈ dedupFirst l, x ∈ l :=
  dedupFirstAux_subset [] l

/-- C5 (amended): every triple produced by the two free-text regex scans
passes `_is_valid_guide`, so its guide's three-digit part lies in 100–199;
triples produced by the table scans (adjacent-triplet and pipe/line
parsing) are validated only against the `\d{3}P?` shape. -/
theorem extraction_guide_validation :
    (∀ (pageText : Str) (t : Str × Str × Str), t ∈ extract_un_index_from_text pageText →
      (100 ≤ digitsToNat (t.2.1.take 3) ∧ digitsToNat (t.2.1.take 3) ≤ 199) ∧
        isValidGuide t.2.1 = true) ∧
    (∀ (table : List (List Str)) (t : Str × Str × Str), t ∈ extract_un_index_from_table table →
      guideRe t.2.1 = true) := by
  constructor
  · intro pageText t ht
    unfold extract_un_index_from_text at ht
    split at ht
    · cases ht
    · have hmem := dedupFirst_subset _ _ ht
      have hval : isValidGuide t.2.1 = true := by
        rcases List.mem_append.mp hmem with h | h
        · obtain ⟨g, _, heq⟩ := List.mem_filterMap.mp h
          simp only at heq
          split at heq
          · rename_i hcond
            cases heq
            exact of_decide_eq_true (by
              have := hcond.2.1
              simpa using this)
          · cases heq
        · obtain ⟨g, _, heq⟩ := List.mem_filterMap.mp h
          simp only at heq
          split at heq
          · rename_i hcond
            cases heq
            exact of_decide_eq_true (by
              have := hcond.2.1
              simpa using this)
          · cases heq
      refine ⟨?_, hval⟩
      have := hval
      simp only [isValidGuide, Bool.and_eq_true, decide_eq_true_eq] at this
      exact ⟨this.2.1, this.2.2⟩
  · intro table t ht
    unfold extract_un_index_from_table at ht
    have hmem := dedupFirst_subset _ _ ht
    rcases List.mem_append.mp hmem with h | h
    · obtain ⟨row, _, hrow⟩ := List.mem_flatMap.mp h
      split at hrow
      · cases hrow
      · obtain ⟨i, _, heq⟩ := List.mem_filterMap.mp hrow
        simp only at heq
        split at heq
        · rename_i hcond
          cases heq
          exact hcond.2.2.2.2
        · cases heq
    · obtain ⟨line, _, hline⟩ := List.mem_flatMap.mp h
      simp only at hline
      split at hline
      · cases hline
      · split at hline
        · obtain ⟨i, _, heq⟩ := List.mem_filterMap.mp hline
          split at heq
          · rename_i hcond
            cases heq
            exact hcond.2.1
          · cases heq
        · rcases hmatch : tryMatchLine (pyStrip line) with _ | ⟨un, guide, nameRaw⟩ <;>
            rw [hmatch] at hline
          · cases hline
          · simp only at hline
            split at hline
            · rename_i hcond
              rcases List.mem_cons.mp hline with he | he
              · cases he
                exact hcond.2.1
              · cases he
            · cases hline

/-- Counterexample to C5 as stated: the adjacent-triplet table scan accepts
guide "999", whose numeric part is outside 100–199. -/
theorem table_guide_range_cex :
    (str "1203", str "999", str "GASOLINE") ∈
      extract_un_index_from_table [[str "1203", str "999", str "GASOLINE"]] ∧
    ¬(100 ≤ digitsToNat ((str "999").take 3) ∧ digitsToNat ((str "999").take 3) ≤ 199) := by
  decide

/-- Witness for C5 (amended): a free-text triple with its validated guide
and a table triple with its shape-checked guide. -/
theorem extraction_guide_validation_witness :
    ((str "1005", str "125", str "Ammonia") ∈
        extract_un_index_from_text (str "1005 125 Ammonia") ∧
      (100 ≤ digitsToNat ((str "125").take 3) ∧ digitsToNat ((str "125").take 3) ≤ 199)) ∧
    ((str "1203", str "128", str "GASOLINE") ∈
        extract_un_index_from_table [[str "1203", str "128", str "GASOLINE"]] ∧
      guideRe (str "128") = true) :=
  ⟨⟨by decide,
    (extraction_guide_validation.1 (str "1005 125 Ammonia")
      (str "1005", str "125", str "Ammonia") (by decide)).1⟩,
   ⟨by decide,
    extraction_guide_validation.2 [[str "1203", str "128", str "GASOLINE"]]
      (str "1203", str "128", str "GASOLINE") (by decide)⟩⟩

/-- The first-observation fold only appends. -/
theorem unFold_append (obs : List ((Str × Str × Str) × Nat))
    (acc : List ((Str × Str × Str) × Nat)) :
    ∃ suf, obs.foldl
      (fun acc ob => if acc.any (fun e => e.1 = ob.1) then acc else acc ++ [ob]) acc =
        acc ++ suf := by
  induction obs generalizing acc with
  | nil => exact ⟨[], (List.append_nil acc).symm⟩
  | cons ob rest ih =>
    rw [List.foldl_cons]
    by_cases h : acc.any (fun e => e.1 = ob.1)
    · rw [if_pos h]; exact ih acc
    · rw [if_neg h]
      obtain ⟨suf, hsuf⟩ := ih (acc ++ [ob])
      exact ⟨ob :: suf, by rw [hsuf, List.append_assoc]; rfl⟩

/-- Elements produced by the fold come from the accumulator or the
observation list. -/
theorem unFold_mem (obs : List ((Str × Str × Str) × Nat))
    (acc : List ((Str × Str × Str) × Nat)) :
    ∀ x ∈ obs.foldl
      (fun acc ob => if acc.any (fun e => e.1 = ob.1) then acc else acc ++ [ob]) acc,
      x ∈ acc ∨ x ∈ obs := by
  induction obs generalizing acc with
  | nil => intro x hx; exact Or.inl hx
  | cons ob rest ih =>
    intro x hx
    rw [List.foldl_cons] at hx
    by_cases h : acc.any (fun e => e.1 = ob.1)
    · rw [if_pos h] at hx
      rcases ih acc x hx with h2 | h2
      · exact Or.inl h2
      · exact Or.inr (List.mem_cons_of_mem ob h2)
    · rw [if_neg h] at hx
      rcases ih (acc ++ [ob]) x hx with h2 | h2
      · rcases List.mem_append.mp h2 with h3 | h3
        · exact Or.inl h3
        · rcases List.mem_singleton.mp h3 with rfl
          exact Or.inr (List.mem_cons_self x rest)
      · exact Or.inr (List.mem_cons_of_mem ob h2)

/-- The fold keeps the triple keys duplicate-free. -/
theorem unFold_nodup (obs : List ((Str × Str × Str) × Nat))
    (acc : List ((Str × Str × Str) × Nat))
    (hn : (acc.map Prod.fst).Nodup) :
    ((obs.foldl
      (fun acc ob => if acc.any (fun e => e.1 = ob.1) then acc else acc ++ [ob]) acc).map
        Prod.fst).Nodup := by
  induction obs generalizing acc with
  | nil => exact hn
  | cons ob rest ih =>
    rw [List.foldl_cons]
    by_cases h : acc.any (fun e => e.1 = ob.1)
    · rw [if_pos h]; exact ih acc hn
    · rw [if_neg h]
      refine ih (acc ++ [ob]) ?_
      rw [List.map_append, List.map_singleton]
      rw [List.any_eq_true] at h
      push_neg at h
      refine List.Nodup.append hn (List.nodup_singleton ob.1) ?_
      intro k hk1 hk2
      rcases List.mem_singleton.mp hk2 with rfl
      obtain ⟨e, he, hek⟩ := List.mem_map.mp hk1
      exact (h e he) (by simpa using hek)

/-- The first stored entry for a key is the first observation of that key:
the fold's `find?` agrees with the observation list's `find?` whenever the
accumulator is key-free. -/
theorem find_key_none {β : Type} (acc : List ((Str × Str × Str) × β)) (t : Str × Str × Str)
    (hacc : ∀ e ∈ acc, e.1 ≠ t) :
    acc.find? (fun e => e.1 = t) = none := by
  rw [List.find?_eq_none]
  intro x hx
  simp only [decide_eq_true_eq]
  exact hacc x hx

/-- The first stored entry for a key is the first observation of that key:
the fold's `find?` agrees with the observation list's `find?` whenever the
accumulator is key-free. -/
theorem unFold_find (obs : List ((Str × Str × Str) × Nat)) (t : Str × Str × Str)
    (acc : List ((Str × Str × Str) × Nat))
    (hacc : ∀ e ∈ acc, e.1 ≠ t) :
    ((obs.foldl
      (fun acc ob => if acc.any (fun e => e.1 = ob.1) then acc else acc ++ [ob]) acc).find?
        (fun e => e.1 = t)) = obs.find? (fun e => e.1 = t) := by
  induction obs generalizing acc with
  | nil =>
    simp only [List.foldl_nil, List.find?_nil]
    exact find_key_none acc t hacc
  | cons ob rest ih =>
    rw [List.foldl_cons]
    by_cases hk : ob.1 = t
    · have hany : acc.any (fun e => e.1 = ob.1) = false := by
        rw [List.any_eq_false]
        intro e he
        simp only [decide_eq_true_eq]
        rw [hk]
        exact hacc e he
      rw [if_neg (by simp [hany])]
      obtain ⟨suf, hsuf⟩ := unFold_append rest (acc ++ [ob])
      rw [hsuf, List.append_assoc, List.find?_append, find_key_none acc t hacc]
      rw [Option.none_or, List.singleton_append]
      rw [List.find?_cons_of_pos _ (by simpa using hk),
        List.find?_cons_of_pos _ (by simpa using hk)]
    · rw [List.find?_cons_of_neg _ (by simpa using hk)]
      by_cases h : acc.any (fun e => e.1 = ob.1) = true
      · rw [if_pos h]; exact ih acc hacc
      · rw [if_neg h]
        refine ih (acc ++ [ob]) ?_
        intro e he
        rcases List.mem_append.mp he with h2 | h2
        · exact hacc e h2
        · rcases List.mem_singleton.mp h2 with rfl
          exact hk

/-- In a key-deduplicated list, exactly one entry carries a present key. -/
theorem filter_key_length_one {β : Type} (l : List ((Str × Str × Str) × β))
    (t : Str × Str × Str) (hn : (l.map Prod.fst).Nodup)
    (e : (Str × Str × Str) × β) (he : e ∈ l) (hk : e.1 = t) :
    (l.filter (fun x => x.1 = t)).length = 1 := by
  induction l with
  | nil => cases he
  | cons y ys ih =>
    rw [List.map_cons, List.nodup_cons] at hn
    rcases List.mem_cons.mp he with rfl | hmem
    · rw [List.filter_cons, if_pos (by simpa using hk)]
      have hnone : ys.filter (fun x => x.1 = t) = [] := by
        rw [List.filter_eq_nil_iff]
        intro x hx
        simp only [decide_eq_true_eq]
        intro hxk
        exact hn.1 (List.mem_map.mpr ⟨x, hx, by rw [hxk, hk]⟩)
      rw [hnone]
      rfl
    · have hyk : ¬(y.1 = t) := by
        intro hy
        exact hn.1 (List.mem_map.mpr ⟨e, hmem, by rw [hk, hy]⟩)
      rw [List.filter_cons, if_neg (by simpa using hyk)]
      exact ih hn.2 hmem

/-- In a key-deduplicated list, entries with equal keys are equal. -/
theorem key_nodup_unique {β : Type} (l : List ((Str × Str × Str) × β))
    (hn : (l.map Prod.fst).Nodup) (a b : (Str × Str × Str) × β)
    (ha : a ∈ l) (hb : b ∈ l) (hk : a.1 = b.1) : a = b := by
  induction l with
  | nil => cases ha
  | cons y ys ih =>
    rw [List.map_cons, List.nodup_cons] at hn
    rcases List.mem_cons.mp ha with rfl | ha2
    · rcases List.mem_cons.mp hb with rfl | hb2
      · rfl
      · exact absurd (List.mem_map.mpr ⟨b, hb2, hk.symm⟩) hn.1
    · rcases List.mem_cons.mp hb with rfl | hb2
      · exact absurd (List.mem_map.mpr ⟨a, ha2, hk⟩) hn.1
      · exact ih hn.2 ha2 hb2

/-- Every element of the input survives the first-occurrence dedup (it is
either already among the seen keys or in the output). -/
theorem dedupFirstAux_mem_or [DecidableEq α] (l : List α) :
    ∀ (seen : List α) (x : α), x ∈ l → x ∈ seen ∨ x ∈ dedupFirstAux seen l := by
  induction l with
  | nil => intro seen x hx; cases hx
  | cons y l ih =>
    intro seen x hx
    unfold dedupFirstAux
    by_cases hy : y ∈ seen
    · rw [if_pos hy]
      rcases List.mem_cons.mp hx with rfl | hx2
      · exact Or.inl hy
      · exact ih seen x hx2
    · rw [if_neg hy]
      rcases List.mem_cons.mp hx with rfl | hx2
      · exact Or.inr (List.mem_cons_self _ _)
      · rcases ih (y :: seen) x hx2 with h | h
        · rcases List.mem_cons.mp h with rfl | h2
          · exact Or.inr (List.mem_cons_self _ _)
          · exact Or.inl h2
        · exact Or.inr (List.mem_cons_of_mem _ h)

/-- Members of `l` are members of `dedupFirst l`. -/
theorem dedupFirst_mem [DecidableEq α] (l : List α) (x : α) (hx : x ∈ l) :
    x ∈ dedupFirst l := by
  rcases dedupFirstAux_mem_or l [] x hx with h | h
  · cases h
  · exact h

/-- The free-text extraction is the first-occurrence dedup of its raw rows. -/
theorem extract_text_eq_dedup (pageText : Str) :
    extract_un_index_from_text pageText = dedupFirst (textTripsRaw pageText) := by
  unfold extract_un_index_from_text textTripsRaw
  by_cases h : pageText = []
  · rw [if_pos h, if_pos h]
    rfl
  · rw [if_neg h, if_neg h]

/-- The table extraction is the first-occurrence dedup of its raw rows. -/
theorem extract_table_eq_dedup (table : List (List Str)) :
    extract_un_index_from_table table = dedupFirst (tableTripsRaw table) := rfl

/-- A triple occurs among a page's raw text rows iff it survives the page's
dedup. -/
theorem textTrips_mem_iff (pageText : Str) (t : Str × Str × Str) :
    t ∈ textTripsRaw pageText ↔ t ∈ extract_un_index_from_text pageText := by
  rw [extract_text_eq_dedup]
  exact ⟨dedupFirst_mem _ t, fun h => dedupFirst_subset _ t h⟩

/-- A triple occurs among a table's raw rows iff it survives the table's
dedup. -/
theorem tableTrips_mem_iff (table : List (List Str)) (t : Str × Str × Str) :
    t ∈ tableTripsRaw table ↔ t ∈ extract_un_index_from_table table := by
  rw [extract_table_eq_dedup]
  exact ⟨dedupFirst_mem _ t, fun h => dedupFirst_subset _ t h⟩

/-- Finding a present triple among one segment's page-tagged rows yields
that segment's page. -/
theorem find_map_page_of_mem (trips : List (Str × Str × Str)) (pg : Nat)
    (t : Str × Str × Str) (ht : t ∈ trips) :
    ((trips.map (fun tr => (tr, pg))).find? (fun ob => ob.1 = t)).map (fun ob => ob.2) =
      some pg := by
  induction trips with
  | nil => cases ht
  | cons tr trips ih =>
    rw [List.map_cons]
    by_cases he : tr = t
    · rw [List.find?_cons_of_pos _ (by simpa using he)]
      rfl
    · rw [List.find?_cons_of_neg _ (by simpa using he)]
      rcases List.mem_cons.mp ht with rfl | h2
      · exact absurd rfl he
      · exact ih h2

/-- Finding an absent triple among one segment's page-tagged rows fails. -/
theorem find_map_page_of_not_mem (trips : List (Str × Str × Str)) (pg : Nat)
    (t : Str × Str × Str) (ht : t ∉ trips) :
    (trips.map (fun tr => (tr, pg))).find? (fun ob => ob.1 = t) = none := by
  rw [List.find?_eq_none]
  intro ob hob
  obtain ⟨tr, htr, rfl⟩ := List.mem_map.mp hob
  simp only [decide_eq_true_eq]
  intro h
  exact ht (h ▸ htr)

/-- Replacing each segment's raw rows by a per-segment dedup that keeps
exactly the same set of triples does not change the page found for a
triple: the first segment containing it is the same, and every row of a
segment carries that segment's page. -/
theorem flatMap_find_page {α : Type} (l : List α)
    (rawF dedupF : α → List (Str × Str × Str)) (pageF : α → Nat)
    (t : Str × Str × Str) (hmem : ∀ a, t ∈ rawF a ↔ t ∈ dedupF a)
    (rest₁ rest₂ : List ((Str × Str × Str) × Nat))
    (hrest : (rest₁.find? (fun ob => ob.1 = t)).map (fun ob => ob.2) =
      (rest₂.find? (fun ob => ob.1 = t)).map (fun ob => ob.2)) :
    ((l.flatMap (fun a => (rawF a).map (fun tr => (tr, pageF a))) ++ rest₁).find?
        (fun ob => ob.1 = t)).map (fun ob => ob.2) =
    ((l.flatMap (fun a => (dedupF a).map (fun tr => (tr, pageF a))) ++ rest₂).find?
        (fun ob => ob.1 = t)).map (fun ob => ob.2) := by
  induction l with
  | nil => simpa using hrest
  | cons a l ih =>
    simp only [List.flatMap_cons, List.append_assoc, List.find?_append]
    by_cases ht : t ∈ rawF a
    · have ht2 : t ∈ dedupF a := (hmem a).mp ht
      have e1 := find_map_page_of_mem (rawF a) (pageF a) t ht
      have e2 := find_map_page_of_mem (dedupF a) (pageF a) t ht2
      obtain ⟨u, hu⟩ : ∃ u, ((rawF a).map (fun tr => (tr, pageF a))).find?
          (fun ob => ob.1 = t) = some u := by
        cases hc : ((rawF a).map (fun tr => (tr, pageF a))).find? (fun ob => ob.1 = t) with
        | none => rw [hc] at e1; cases e1
        | some u => exact ⟨u, rfl⟩
      obtain ⟨v, hv⟩ : ∃ v, ((dedupF a).map (fun tr => (tr, pageF a))).find?
          (fun ob => ob.1 = t) = some v := by
        cases hc : ((dedupF a).map (fun tr => (tr, pageF a))).find? (fun ob => ob.1 = t) with
        | none => rw [hc] at e2; cases e2
        | some v => exact ⟨v, rfl⟩
      rw [hu, hv]
      rw [hu] at e1
      rw [hv] at e2
      exact e1.trans e2.symm
    · have ht2 : t ∉ dedupF a := fun h => ht ((hmem a).mpr h)
      rw [find_map_page_of_not_mem _ _ _ ht, find_map_page_of_not_mem _ _ _ ht2,
        Option.none_or, Option.none_or, ← List.find?_append, ← List.find?_append]
      exact ih

/-- The page of the first raw observation of a triple is the page of its
first post-dedup observation: the per-page and per-table dedups keep first
occurrences, and all rows of a segment carry the same page. -/
theorem rawObs_find_page (doc : ExtractionDoc) (t : Str × Str × Str) :
    ((unIndexRawObservations doc).find? (fun ob => ob.1 = t)).map (fun ob => ob.2) =
      ((unIndexObservations doc).find? (fun ob => ob.1 = t)).map (fun ob => ob.2) := by
  have htab := flatMap_find_page doc.tables (fun tb => tableTripsRaw tb.data)
    (fun tb => extract_un_index_from_table tb.data) (fun tb => tb.page) t
    (fun tb => tableTrips_mem_iff tb.data t) [] [] rfl
  simp only [List.append_nil] at htab
  have hpages := flatMap_find_page doc.pages (fun p => textTripsRaw p.text)
    (fun p => extract_un_index_from_text p.text) (fun p => p.page) t
    (fun p => textTrips_mem_iff p.text t) _ _ htab
  unfold unIndexRawObservations unIndexObservations
  exact hpages

/-- A triple with a raw observation also has a post-dedup observation. -/
theorem rawObs_exists (doc : ExtractionDoc) (t : Str × Str × Str)
    (h : ∃ ob ∈ unIndexRawObservations doc, ob.1 = t) :
    ∃ ob ∈ unIndexObservations doc, ob.1 = t := by
  obtain ⟨ob, hmem, hkey⟩ := h
  unfold unIndexRawObservations at hmem
  unfold unIndexObservations
  rcases List.mem_append.mp hmem with h | h
  · obtain ⟨p, hp, hin⟩ := List.mem_flatMap.mp h
    obtain ⟨tr, htr, rfl⟩ := List.mem_map.mp hin
    refine ⟨(tr, p.page), ?_, hkey⟩
    exact List.mem_append.mpr (Or.inl (List.mem_flatMap.mpr
      ⟨p, hp, List.mem_map.mpr ⟨tr, (textTrips_mem_iff p.text tr).mp htr, rfl⟩⟩))
  · obtain ⟨tb, htb, hin⟩ := List.mem_flatMap.mp h
    obtain ⟨tr, htr, rfl⟩ := List.mem_map.mp hin
    refine ⟨(tr, tb.page), ?_, hkey⟩
    exact List.mem_append.mpr (Or.inr (List.mem_flatMap.mpr
      ⟨tb, htb, List.mem_map.mpr ⟨tr, (tableTrips_mem_iff tb.data tr).mp htr, rfl⟩⟩))

/-- C6: when the same `(un, guide, name)` triple is matched more than once
during one ingestion run — counting every raw match before any dedup, so
twice on one page, twice in one table, or across pages and tables, all
pages being scanned before all tables — the run stores exactly one
UN-index row for it, and that row's page number is the page of the first
raw match. -/
theorem un_index_dedup_first_page (doc : ExtractionDoc) (force bE : Bool)
    (r : IngestResult) (db' : ErgDb) (t : Str × Str × Str)
    (hing : ingest_from_extraction ErgDb.empty (some [doc]) force bE = .ok (r, db'))
    (hocc : 2 ≤ ((unIndexRawObservations doc).filter (fun ob => ob.1 = t)).length) :
    (db'.unIndex.filter
      (fun row => (row.unNumber, row.guideNumber, row.materialName) = t)).length = 1 ∧
    (∀ row ∈ db'.unIndex, (row.unNumber, row.guideNumber, row.materialName) = t →
      ((unIndexRawObservations doc).find? (fun ob => ob.1 = t)).map (fun ob => ob.2) =
        some row.pageNumber) := by
  have hpair : ingestWrite ErgDb.empty doc
      (orElseStr doc.title (orElseStr doc.filename (str "ERG2024")))
      (orElseStr doc.filename (str "ERG2024")) bE = (r, db') := Except.ok.inj hing
  have hdb : (ingestWrite ErgDb.empty doc
      (orElseStr doc.title (orElseStr doc.filename (str "ERG2024")))
      (orElseStr doc.filename (str "ERG2024")) bE).2 = db' := by rw [hpair]
  have hui : db'.unIndex = (unIndexSetOf doc).map
      (fun ob => UnIndexRow.mk 1 ob.1.1 ob.1.2.1 ob.1.2.2 ob.2) := by
    rw [← hdb]
    rfl
  have hnodup : ((unIndexSetOf doc).map Prod.fst).Nodup :=
    unFold_nodup (unIndexObservations doc) [] (by simp)
  have hfind : ((unIndexSetOf doc).find? (fun e => e.1 = t)) =
      (unIndexObservations doc).find? (fun e => e.1 = t) :=
    unFold_find (unIndexObservations doc) t [] (by intro e he; cases he)
  have hobs_mem : ∃ ob ∈ unIndexObservations doc, ob.1 = t := by
    apply rawObs_exists doc t
    have hne : (unIndexRawObservations doc).filter (fun ob => ob.1 = t) ≠ [] := by
      intro h
      rw [h] at hocc
      simp at hocc
    obtain ⟨ob, hob⟩ := List.exists_mem_of_ne_nil _ hne
    exact ⟨ob, List.mem_of_mem_filter hob, by simpa using List.of_mem_filter hob⟩
  have hfound : ∃ e, (unIndexObservations doc).find? (fun x => x.1 = t) = some e := by
    obtain ⟨ob, hmem, hkey⟩ := hobs_mem
    have : ((unIndexObservations doc).find? (fun x => x.1 = t)).isSome := by
      rw [List.find?_isSome]
      exact ⟨ob, hmem, by simpa using hkey⟩
    exact Option.isSome_iff_exists.mp this
  obtain ⟨e, he⟩ := hfound
  have heSet : e ∈ unIndexSetOf doc := List.mem_of_find?_eq_some (hfind.trans he)
  have heKey : e.1 = t := by
    have := List.find?_some (hfind.trans he)
    simpa using this
  have hfilter : ((unIndexSetOf doc).filter (fun x => x.1 = t)).length = 1 :=
    filter_key_length_one (unIndexSetOf doc) t hnodup e heSet heKey
  constructor
  · rw [hui, List.filter_map]
    rw [List.length_map]
    have hfun : ((fun row : UnIndexRow =>
        decide ((row.unNumber, row.guideNumber, row.materialName) = t)) ∘
          (fun ob : (Str × Str × Str) × Nat =>
            UnIndexRow.mk 1 ob.1.1 ob.1.2.1 ob.1.2.2 ob.2)) =
        (fun x : (Str × Str × Str) × Nat => decide (x.1 = t)) := by
      funext ob
      simp [Function.comp]
    rw [hfun]
    exact hfilter
  · intro row hrow hkey
    rw [rawObs_find_page doc t]
    rw [hui] at hrow
    obtain ⟨ob, hobSet, hobEq⟩ := List.mem_map.mp hrow
    have hobKey : ob.1 = t := by
      rw [← hobEq] at hkey
      simpa using hkey
    have : ob = e := key_nodup_unique (unIndexSetOf doc) hnodup ob e hobSet heSet
      (by rw [hobKey, heKey])
    rw [he, ← hobEq, this]
    rfl

/-- Witness for C6: the triple (1005, 125, Ammonia) is matched on pages 10
and 11 and twice in a table on page 12; one row is stored, carrying
page 10. -/
theorem un_index_dedup_first_page_witness :
    ingest_from_extraction ErgDb.empty (some [c6doc]) false false = .ok (c6pair.1, c6pair.2) ∧
    2 ≤ ((unIndexRawObservations c6doc).filter
      (fun ob => ob.1 = (str "1005", str "125", str "Ammonia"))).length ∧
    (c6pair.2.unIndex.filter
      (fun row => (row.unNumber, row.guideNumber, row.materialName) =
        (str "1005", str "125", str "Ammonia"))).length = 1 ∧
    (∀ row ∈ c6pair.2.unIndex,
      (row.unNumber, row.guideNumber, row.materialName) = (str "1005", str "125", str "Ammonia") →
      ((unIndexRawObservations c6doc).find?
        (fun ob => ob.1 = (str "1005", str "125", str "Ammonia"))).map (fun ob => ob.2) =
        some row.pageNumber) := by
  have h1 : ingest_from_extraction ErgDb.empty (some [c6doc]) false false =
      .ok (c6pair.1, c6pair.2) := by rfl
  have h2 : 2 ≤ ((unIndexRawObservations c6doc).filter
      (fun ob => ob.1 = (str "1005", str "125", str "Ammonia"))).length := by decide
  obtain ⟨ha, hb⟩ := un_index_dedup_first_page c6doc false false c6pair.1 c6pair.2
    (str "1005", str "125", str "Ammonia") h1 h2
  exact ⟨h1, h2, ha, hb⟩

/-- Membership through the descending insertion. -/
theorem mem_insertScoredDesc (x y : ℚ × SearchRow) (l : List (ℚ × SearchRow)) :
    x ∈ insertScoredDesc y l ↔ x = y ∨ x ∈ l := by
  induction l with
  | nil => simp [insertScoredDesc]
  | cons z zs ih =>
    unfold insertScoredDesc
    split
    · constructor
      · intro h
        rcases List.mem_cons.mp h with h | h
        · exact Or.inl h
        · exact Or.inr h
      · intro h
        rcases h with h | h
        · exact List.mem_cons.mpr (Or.inl h)
        · exact List.mem_cons.mpr (Or.inr h)
    · constructor
      · intro h
        rcases List.mem_cons.mp h with h | h
        · exact Or.inr (List.mem_cons.mpr (Or.inl h))
        · rcases (ih).mp h with h | h
          · exact Or.inl h
          · exact Or.inr (List.mem_cons.mpr (Or.inr h))
      · intro h
        rcases h with h | h
        · exact List.mem_cons.mpr (Or.inr ((ih).mpr (Or.inl h)))
        · rcases List.mem_cons.mp h with h | h
          · exact List.mem_cons.mpr (Or.inl h)
          · exact List.mem_cons.mpr (Or.inr ((ih).mpr (Or.inr h)))

/-- Membership is preserved by the stable descending sort. -/
theorem mem_sortScoredDesc (x : ℚ × SearchRow) (l : List (ℚ × SearchRow)) :
    x ∈ sortScoredDesc l ↔ x ∈ l := by
  unfold sortScoredDesc
  have h : ∀ (l : List (ℚ × SearchRow)) (acc : List (ℚ × SearchRow)),
      x ∈ l.foldl (fun acc y => insertScoredDesc y acc) acc ↔ x ∈ acc ∨ x ∈ l := by
    intro l
    induction l with
    | nil => intro acc; simp
    | cons y ys ih =>
      intro acc
      rw [List.foldl_cons, ih (insertScoredDesc y acc), mem_insertScoredDesc]
      constructor
      · rintro ((h | h) | h)
        · exact Or.inr (List.mem_cons.mpr (Or.inl h))
        · exact Or.inl h
        · exact Or.inr (List.mem_cons.mpr (Or.inr h))
      · rintro (h | h)
        · exact Or.inl (Or.inr h)
        · rcases List.mem_cons.mp h with h | h
          · exact Or.inl (Or.inl h)
          · exact Or.inr h
  rw [h l []]
  simp

/-- A map that preserves the row component keeps every row present. -/
theorem mem_map_snd (f : ℚ × SearchRow → ℚ × SearchRow)
    (hf : ∀ x, (f x).2 = x.2) (l : List (ℚ × SearchRow)) (x : ℚ × SearchRow)
    (hx : x ∈ l) : ∃ s, (s, x.2) ∈ l.map f := by
  refine ⟨(f x).1, ?_⟩
  have hfx : f x = ((f x).1, x.2) := by
    rw [← hf x]
  rw [← hfx]
  exact List.mem_map_of_mem f hx

/-- Every scored candidate appears, with its boosted score, among the
boosted candidates. -/
theorem ergBoosted_mem (qvec : List ℚ) (rows : List SearchRow) (sr : ℚ × SearchRow)
    (h : sr ∈ ergScored qvec rows) : ∃ s, (s, sr.2) ∈ ergBoosted qvec rows := by
  by_cases ha : ergAnchors qvec rows = []
  · refine ⟨sr.1, ?_⟩
    unfold ergBoosted
    simp only [ha, if_pos]
    exact h
  · unfold ergBoosted
    simp only [if_neg ha]
    refine mem_map_snd _ ?_ _ sr h
    intro x
    cases hg : x.2.guideNumber
    · rfl
    · simp only [hg]
      split
      · rfl
      · split <;> rfl

/-- Case analysis of one prepend step: it leaves the state unchanged, or
appends one found `guide_text` entry (and its key) for the anchor. -/
theorem ergPrependStep_eq (sorted : List (ℚ × SearchRow))
    (st : List (ℚ × SearchRow) × List SearchKey) (g : Str) :
    ergPrependStep sorted st g = st ∨
    ∃ best, sorted.find?
        (fun sr => sr.2.chunkType = str "guide_text" ∧ sr.2.guideNumber = some g) = some best ∧
      rowKey best.2 ∉ st.2 ∧
      ergPrependStep sorted st g = (st.1 ++ [best], st.2 ++ [rowKey best.2]) := by
  unfold ergPrependStep
  rcases hfind : sorted.find?
      (fun sr => sr.2.chunkType = str "guide_text" ∧ sr.2.guideNumber = some g) with _ | best
  · rw [hfind]
    exact Or.inl rfl
  · rw [hfind]
    by_cases hkey : rowKey best.2 ∈ st.2
    · exact Or.inl (if_pos hkey)
    · exact Or.inr ⟨best, rfl, hkey, if_neg hkey⟩

/-- The prepend pass only appends. -/
theorem ergPrepends_append (sorted : List (ℚ × SearchRow)) (anchors : List Str)
    (st : List (ℚ × SearchRow) × List SearchKey) :
    ∃ suf, (anchors.foldl (ergPrependStep sorted) st).1 = st.1 ++ suf := by
  induction anchors generalizing st with
  | nil => exact ⟨[], (List.append_nil st.1).symm⟩
  | cons a rest ih =>
    rw [List.foldl_cons]
    rcases ergPrependStep_eq sorted st a with h | ⟨best, _, _, h⟩
    · rw [h]; exact ih st
    · rw [h]
      obtain ⟨suf, hsuf⟩ := ih (st.1 ++ [best], st.2 ++ [rowKey best.2])
      rw [hsuf]
      exact ⟨best :: suf, by rw [List.append_assoc]; rfl⟩

/-- The prepend pass adds at most one entry per anchor. -/
theorem ergPrepends_length (sorted : List (ℚ × SearchRow)) (anchors : List Str)
    (st : List (ℚ × SearchRow) × List SearchKey) :
    (anchors.foldl (ergPrependStep sorted) st).1.length ≤ st.1.length + anchors.length := by
  induction anchors generalizing st with
  | nil => simp
  | cons a rest ih =>
    rw [List.foldl_cons]
    rcases ergPrependStep_eq sorted st a with h | ⟨best, _, _, h⟩
    · rw [h]
      calc (rest.foldl (ergPrependStep sorted) st).1.length
          ≤ st.1.length + rest.length := ih st
        _ ≤ st.1.length + (a :: rest).length := by
            simp only [List.length_cons]; omega
    · rw [h]
      calc (rest.foldl (ergPrependStep sorted) (st.1 ++ [best], st.2 ++ [rowKey best.2])).1.length
          ≤ (st.1 ++ [best]).length + rest.length := ih _
        _ ≤ st.1.length + (a :: rest).length := by
            simp only [List.length_append, List.length_cons, List.length_nil]; omega

/-- The seen keys of the prepend pass are exactly the keys of the
accumulated entries. -/
theorem ergPrepends_sync (sorted : List (ℚ × SearchRow)) (anchors : List Str)
    (st : List (ℚ × SearchRow) × List SearchKey)
    (h : st.2 = st.1.map (fun e => rowKey e.2)) :
    (anchors.foldl (ergPrependStep sorted) st).2 =
      (anchors.foldl (ergPrependStep sorted) st).1.map (fun e => rowKey e.2) := by
  induction anchors generalizing st with
  | nil => exact h
  | cons a rest ih =>
    rw [List.foldl_cons]
    rcases ergPrependStep_eq sorted st a with heq | ⟨best, _, _, heq⟩
    · rw [heq]; exact ih st h
    · rw [heq]
      refine ih _ ?_
      simp only [List.map_append, List.map_cons, List.map_nil]
      rw [h]

/-- The guarantee pass covers every anchor that has a `guide_text`
candidate: an entry of that anchor ends up among the prepends. -/
theorem ergPrepends_cover (sorted : List (ℚ × SearchRow)) (anchors : List Str)
    (st : List (ℚ × SearchRow) × List SearchKey) (g : Str)
    (hg : g ∈ anchors) (hnd : anchors.Nodup)
    (hinv : ∀ e ∈ st.1, e.2.guideNumber ≠ some g)
    (hsync : st.2 = st.1.map (fun e => rowKey e.2))
    (hex : ∃ y ∈ sorted, y.2.chunkType = str "guide_text" ∧ y.2.guideNumber = some g) :
    ∃ e ∈ (anchors.foldl (ergPrependStep sorted) st).1,
      e.2.chunkType = str "guide_text" ∧ e.2.guideNumber = some g := by
  induction anchors generalizing st with
  | nil => cases hg
  | cons a rest ih =>
    rw [List.foldl_cons]
    by_cases hga : g = a
    · subst hga
      have hsome : ∃ best, sorted.find?
          (fun sr => sr.2.chunkType = str "guide_text" ∧ sr.2.guideNumber = some g) =
            some best := by
        apply Option.isSome_iff_exists.mp
        rw [List.find?_isSome]
        obtain ⟨y, hy, hyp⟩ := hex
        exact ⟨y, hy, by simpa using hyp⟩
      obtain ⟨best, hbest⟩ := hsome
      have hbp : best.2.chunkType = str "guide_text" ∧ best.2.guideNumber = some g := by
        simpa using List.find?_some hbest
      have hkey : rowKey best.2 ∉ st.2 := by
        intro hk
        rw [hsync] at hk
        obtain ⟨e, he, hek⟩ := List.mem_map.mp hk
        apply hinv e he
        have hgn : e.2.guideNumber = best.2.guideNumber :=
          congrArg (fun k : SearchKey => k.2.1) hek
        rw [hgn, hbp.2]
      have hstep : ergPrependStep sorted st g = (st.1 ++ [best], st.2 ++ [rowKey best.2]) := by
        unfold ergPrependStep
        simp only [hbest]
        rw [if_neg hkey]
      rw [hstep]
      obtain ⟨suf, hsuf⟩ := ergPrepends_append sorted rest (st.1 ++ [best], st.2 ++ [rowKey best.2])
      refine ⟨best, ?_, hbp⟩
      rw [hsuf]
      exact List.mem_append.mpr (Or.inl (List.mem_append.mpr (Or.inr (List.mem_singleton.mpr rfl))))
    · have hgr : g ∈ rest := by
        rcases List.mem_cons.mp hg with h | h
        · exact absurd h hga
        · exact h
      rcases ergPrependStep_eq sorted st a with heq | ⟨b, hbfind, _, heq⟩
      · rw [heq]
        exact ih st hgr (List.Nodup.of_cons hnd) hinv hsync
      · rw [heq]
        refine ih _ hgr (List.Nodup.of_cons hnd) ?_ ?_
        · intro e he
          rcases List.mem_append.mp he with h | h
          · exact hinv e h
          · rcases List.mem_singleton.mp h with rfl
            have hb : e.2.chunkType = str "guide_text" ∧ e.2.guideNumber = some a := by
              simpa using List.find?_some hbfind
            rw [hb.2]
            intro hcontra
            exact hga (Option.some.inj hcontra).symm
        · rw [hsync]
          simp [List.map_append]

/-- The seen keys of the prepend pass stay duplicate-free. -/
theorem ergPrepends_keys_nodup (sorted : List (ℚ × SearchRow)) (anchors : List Str)
    (st : List (ℚ × SearchRow) × List SearchKey) (hnd : st.2.Nodup) :
    (anchors.foldl (ergPrependStep sorted) st).2.Nodup := by
  induction anchors generalizing st with
  | nil => exact hnd
  | cons a rest ih =>
    rw [List.foldl_cons]
    rcases ergPrependStep_eq sorted st a with heq | ⟨b, _, hbkey, heq⟩
    · rw [heq]; exact ih st hnd
    · rw [heq]
      refine ih _ ?_
      refine List.Nodup.append hnd (List.nodup_singleton _) ?_
      intro x hx1 hx2
      rcases List.mem_singleton.mp hx2 with rfl
      exact hbkey hx1

/-- The fill loop only appends. -/
theorem ergFill_append (k : Nat) (l : List (ℚ × SearchRow)) (seen : List SearchKey)
    (res : List (ℚ × SearchRow)) :
    ∃ suf, ergFill k l seen res = res ++ suf := by
  induction l generalizing seen res with
  | nil => exact ⟨[], (List.append_nil res).symm⟩
  | cons sr rest ih =>
    unfold ergFill
    by_cases hseen : rowKey sr.2 ∈ seen
    · rw [if_pos hseen]; exact ih seen res
    · rw [if_neg hseen]
      by_cases hlen : k ≤ (res ++ [sr]).length
      · rw [if_pos hlen]; exact ⟨[sr], rfl⟩
      · rw [if_neg hlen]
        obtain ⟨suf, hsuf⟩ := ih (rowKey sr.2 :: seen) (res ++ [sr])
        rw [hsuf, List.append_assoc]
        exact ⟨sr :: suf, rfl⟩

/-- The fill loop keeps dedup keys duplicate-free. -/
theorem ergFill_keys_nodup (k : Nat) (l : List (ℚ × SearchRow)) (seen : List SearchKey)
    (res : List (ℚ × SearchRow))
    (hres : (res.map (fun e => rowKey e.2)).Nodup)
    (hsub : ∀ e ∈ res, rowKey e.2 ∈ seen) :
    ((ergFill k l seen res).map (fun e => rowKey e.2)).Nodup := by
  induction l generalizing seen res with
  | nil => exact hres
  | cons sr rest ih =>
    unfold ergFill
    by_cases hseen : rowKey sr.2 ∈ seen
    · rw [if_pos hseen]; exact ih seen res hres hsub
    · rw [if_neg hseen]
      have hnodup2 : ((res ++ [sr]).map (fun e => rowKey e.2)).Nodup := by
        rw [List.map_append, List.map_cons, List.map_nil]
        refine List.Nodup.append hres (List.nodup_singleton _) ?_
        intro x hx1 hx2
        rcases List.mem_singleton.mp hx2 with rfl
        obtain ⟨e, he, hek⟩ := List.mem_map.mp hx1
        exact hseen (hek ▸ hsub e he)
      by_cases hlen : k ≤ (res ++ [sr]).length
      · rw [if_pos hlen]; exact hnodup2
      · rw [if_neg hlen]
        refine ih (rowKey sr.2 :: seen) (res ++ [sr]) hnodup2 ?_
        intro e he
        rcases List.mem_append.mp he with h | h
        · exact List.mem_cons_of_mem _ (hsub e h)
        · rcases List.mem_singleton.mp h with rfl
          exact List.mem_cons_self _ _

/-- First-kept deduplication avoids the seen set and produces no
duplicates. -/
theorem dedupFirstAux_nodup [DecidableEq α] (seen : List α) (l : List α) :
    (∀ x ∈ dedupFirstAux seen l, x ∉ seen) ∧ (dedupFirstAux seen l).Nodup := by
  induction l generalizing seen with
  | nil => exact ⟨fun x hx => absurd hx (List.not_mem_nil x), List.nodup_nil⟩
  | cons y ys ih =>
    unfold dedupFirstAux
    by_cases hy : y ∈ seen
    · rw [if_pos hy]; exact ih seen
    · rw [if_neg hy]
      obtain ⟨h1, h2⟩ := ih (y :: seen)
      constructor
      · intro x hx
        rcases List.mem_cons.mp hx with rfl | hmem
        · exact hy
        · intro hxs
          exact h1 x hmem (List.mem_cons_of_mem y hxs)
      · rw [List.nodup_cons]
        refine ⟨?_, h2⟩
        intro hmem
        exact h1 y hmem (List.mem_cons_self y seen)

/-- First-kept deduplication produces no duplicates. -/
theorem dedupFirst_nodup [DecidableEq α] (l : List α) : (dedupFirst l).Nodup :=
  (dedupFirstAux_nodup [] l).2

/-- The anchor list never repeats a guide. -/
theorem ergAnchors_nodup (qvec : List ℚ) (rows : List SearchRow) :
    (ergAnchors qvec rows).Nodup :=
  dedupFirst_nodup _

/-- C1 (amended): on the fallback backend the returned list is
deduplicated by `(chunk_type, guide_number, un_or_na, page_number,
content)` identity and holds at most `k` entries; and whenever `k` is at
least the number of anchor guides (always true for the default `k = 10`,
since at most five anchors exist), every anchor guide with a `guide_text`
candidate in the scored set is represented by a `guide_text` result, even
if its raw unboosted score alone would not place it in the top `k`. -/
theorem erg_search_fallback_guarantees (qvec : List ℚ) (k : Nat) (rows : List SearchRow) :
    ((erg_search_fallback qvec k rows).map (fun sr => rowKey sr.2)).Nodup ∧
    (erg_search_fallback qvec k rows).length ≤ k ∧
    (∀ g ∈ ergAnchors qvec rows, (ergAnchors qvec rows).length ≤ k →
      (∃ sr ∈ ergScored qvec rows,
        sr.2.chunkType = str "guide_text" ∧ sr.2.guideNumber = some g) →
      ∃ sr ∈ erg_search_fallback qvec k rows,
        sr.2.chunkType = str "guide_text" ∧ sr.2.guideNumber = some g) := by
  have hpre_sync : (ergAnchorPrepends (ergSortedBoosted qvec rows) (ergAnchors qvec rows)).2 =
      (ergAnchorPrepends (ergSortedBoosted qvec rows) (ergAnchors qvec rows)).1.map
        (fun e => rowKey e.2) :=
    ergPrepends_sync (ergSortedBoosted qvec rows) (ergAnchors qvec rows) ([], []) rfl
  have hpre_nodup : ((ergAnchorPrepends (ergSortedBoosted qvec rows)
      (ergAnchors qvec rows)).1.map (fun e => rowKey e.2)).Nodup := by
    rw [← hpre_sync]
    exact ergPrepends_keys_nodup (ergSortedBoosted qvec rows) (ergAnchors qvec rows) ([], [])
      List.nodup_nil
  have hpre_sub : ∀ e ∈ (ergAnchorPrepends (ergSortedBoosted qvec rows)
      (ergAnchors qvec rows)).1,
      rowKey e.2 ∈ (ergAnchorPrepends (ergSortedBoosted qvec rows) (ergAnchors qvec rows)).2 := by
    intro e he
    rw [hpre_sync]
    exact List.mem_map_of_mem _ he
  have hfill_nodup := ergFill_keys_nodup k (ergSortedBoosted qvec rows)
    (ergAnchorPrepends (ergSortedBoosted qvec rows) (ergAnchors qvec rows)).2
    (ergAnchorPrepends (ergSortedBoosted qvec rows) (ergAnchors qvec rows)).1
    hpre_nodup hpre_sub
  refine ⟨?_, ?_, ?_⟩
  · simp only [erg_search_fallback]
    rw [List.map_take]
    exact List.Nodup.sublist (List.take_sublist k _) hfill_nodup
  · simp only [erg_search_fallback]
    exact List.length_take_le k _
  · intro g hg hk hex
    obtain ⟨sr, hsr, hprop⟩ := hex
    obtain ⟨s2, hs2⟩ := ergBoosted_mem qvec rows sr hsr
    have hsorted : (s2, sr.2) ∈ ergSortedBoosted qvec rows := by
      unfold ergSortedBoosted
      rw [mem_sortScoredDesc]
      exact hs2
    obtain ⟨e, he, heprop⟩ := ergPrepends_cover (ergSortedBoosted qvec rows)
      (ergAnchors qvec rows) ([], []) g hg (ergAnchors_nodup qvec rows)
      (fun e he => absurd he (List.not_mem_nil e)) rfl
      ⟨(s2, sr.2), hsorted, hprop.1, hprop.2⟩
    have hlen : (ergAnchorPrepends (ergSortedBoosted qvec rows)
        (ergAnchors qvec rows)).1.length ≤ k := by
      have h1 := ergPrepends_length (ergSortedBoosted qvec rows) (ergAnchors qvec rows) ([], [])
      simp only [List.length_nil, Nat.zero_add] at h1
      exact le_trans h1 hk
    obtain ⟨suf, hsuf⟩ := ergFill_append k (ergSortedBoosted qvec rows)
      (ergAnchorPrepends (ergSortedBoosted qvec rows) (ergAnchors qvec rows)).2
      (ergAnchorPrepends (ergSortedBoosted qvec rows) (ergAnchors qvec rows)).1
    refine ⟨e, ?_, heprop⟩
    simp only [erg_search_fallback]
    rw [hsuf, List.take_append_eq_append_take, List.take_of_length_le hlen]
    exact List.mem_append.mpr (Or.inl he)

/-- Counterexample to C1 as stated: with `k = 1` and two anchor guides,
the anchor guide "111" has a `guide_text` candidate in the scored set, yet
no `guide_text` result for it survives the final truncation to `k`. -/
theorem erg_search_anchor_guarantee_cex :
    ∃ g ∈ ergAnchors c1qvec c1rows,
      (∃ sr ∈ ergScored c1qvec c1rows,
        sr.2.chunkType = str "guide_text" ∧ sr.2.guideNumber = some g) ∧
      ∀ sr ∈ erg_search_fallback c1qvec 1 c1rows,
        ¬(sr.2.chunkType = str "guide_text" ∧ sr.2.guideNumber = some g) := by
  decide

/-- Witness for C1 (amended): with the default `k = 10` the anchor guide
"111" is represented among the results. -/
theorem erg_search_fallback_guarantees_witness :
    (str "111") ∈ ergAnchors c1qvec c1rows ∧
    (ergAnchors c1qvec c1rows).length ≤ 10 ∧
    (∃ sr ∈ ergScored c1qvec c1rows,
      sr.2.chunkType = str "guide_text" ∧ sr.2.guideNumber = some (str "111")) ∧
    ∃ sr ∈ erg_search_fallback c1qvec 10 c1rows,
      sr.2.chunkType = str "guide_text" ∧ sr.2.guideNumber = some (str "111") :=
  ⟨by decide, by decide, by decide,
    (erg_search_fallback_guarantees c1qvec 10 c1rows).2.2 (str "111") (by decide)
      (by decide) (by decide)⟩

/-! ## The filler paragraph family used by the chunker counterexamples -/

theorem zrun_ne_nil (n : Nat) : zrun n ≠ [] := by
  cases n <;> simp [zrun]

theorem zrun_length (n : Nat) : (zrun n).length = 2 * n + 1 := by
  induction n with
  | zero => rfl
  | succ n ih => simp [zrun, ih]; omega

theorem zrun_head_z (n : Nat) : ∃ t, zrun n = 'z' :: t := by
  cases n <;> exact ⟨_, rfl⟩

theorem zrun_succ_append (n : Nat) : zrun (n + 1) = zrun n ++ ['\n', 'z'] := by
  induction n with
  | zero => rfl
  | succ n ih =>
    show 'z' :: '\n' :: zrun (n + 1) = ('z' :: '\n' :: zrun n) ++ ['\n', 'z']
    rw [ih]; rfl

theorem zrun_reverse_z (n : Nat) : ∃ t, (zrun n).reverse = 'z' :: t := by
  cases n with
  | zero => exact ⟨[], rfl⟩
  | succ n =>
    refine ⟨'\n' :: (zrun n).reverse, ?_⟩
    rw [zrun_succ_append]
    simp

theorem zrun_all (p : Char → Bool) (hz : p 'z' = true) (hn : p '\n' = true) (n : Nat) :
    (zrun n).all p = true := by
  induction n with
  | zero => simp [zrun, hz]
  | succ n ih => simp [zrun, hz, hn, ih]

theorem zrun_map_id (f : Char → Char) (hz : f 'z' = 'z') (hn : f '\n' = '\n') (n : Nat) :
    (zrun n).map f = zrun n := by
  induction n with
  | zero => simp [zrun, hz]
  | succ n ih => simp [zrun, hz, hn, ih]

theorem zrun_drop_even (m : Nat) : ∀ n, m ≤ n → (zrun n).drop (2 * m) = zrun (n - m) := by
  induction m with
  | zero => intro n _; simp
  | succ m ih =>
    intro n hm
    obtain ⟨n, rfl⟩ : ∃ k, n = k + 1 := ⟨n - 1, by omega⟩
    have h2 : 2 * (m + 1) = 2 * m + 1 + 1 := by omega
    rw [h2]
    show (('z' : Char) :: '\n' :: zrun n).drop (2 * m + 1 + 1) = _
    rw [List.drop_succ_cons, List.drop_succ_cons, ih n (by omega)]
    congr 1
    omega

theorem zrun_drop_odd (m n : Nat) (h : m < n) :
    (zrun n).drop (2 * m + 1) = '\n' :: zrun (n - m - 1) := by
  have h1 : (zrun n).drop (2 * m) = zrun (n - m) := zrun_drop_even m n (by omega)
  have h2 : (zrun n).drop (2 * m + 1) = (zrun (n - m)).drop 1 := by
    rw [← h1, List.drop_drop]
  obtain ⟨k, hk⟩ : ∃ k, n - m = k + 1 := ⟨n - m - 1, by omega⟩
  rw [h2, hk]
  show (('z' : Char) :: '\n' :: zrun k).drop 1 = _
  rw [List.drop_succ_cons, List.drop_zero]
  norm_num

/-! ## Splitting and stripping the filler -/

theorem pySplitOnAux_succ (sep : Str) (fuel : Nat) (s cur : Str) :
    pySplitOnAux sep (fuel + 1) s cur =
      if sep ≠ [] ∧ sep.isPrefixOf s then
        cur.reverse :: pySplitOnAux sep fuel (s.drop sep.length) []
      else
        match s with
        | [] => [cur.reverse]
        | c :: rest => pySplitOnAux sep fuel rest (c :: cur) := rfl

theorem pySplitOnAux_nil (sep cur : Str) (fuel : Nat) :
    pySplitOnAux sep fuel [] cur = [cur.reverse] := by
  cases fuel with
  | zero => rfl
  | succ fuel =>
    rw [pySplitOnAux_succ]
    rw [if_neg (by rintro ⟨h1, h2⟩; simp [List.isPrefixOf_iff_prefix] at h2; exact h1 h2)]

theorem pySplitOnAux_zrun (k : Nat) : ∀ (fuel : Nat) (s cur : Str), 2 * k + 1 ≤ fuel →
    pySplitOnAux paraSep fuel (zrun k ++ s) cur =
      pySplitOnAux paraSep (fuel - (2 * k + 1)) s ((zrun k).reverse ++ cur) := by
  induction k with
  | zero =>
    intro fuel s cur hf
    obtain ⟨f, rfl⟩ : ∃ f, fuel = f + 1 := ⟨fuel - 1, by omega⟩
    show pySplitOnAux paraSep (f + 1) ('z' :: s) cur = _
    rw [pySplitOnAux_succ]
    rw [if_neg (by simp [paraSep, str, List.isPrefixOf])]
    show pySplitOnAux paraSep f s ('z' :: cur) = _
    simp [zrun]
  | succ k ih =>
    intro fuel s cur hf
    obtain ⟨f, rfl⟩ : ∃ f, fuel = f + 2 := ⟨fuel - 2, by omega⟩
    obtain ⟨t, ht⟩ := zrun_head_z k
    show pySplitOnAux paraSep (f + 1 + 1) ('z' :: '\n' :: (zrun k ++ s)) cur = _
    rw [pySplitOnAux_succ]
    rw [if_neg (by simp [paraSep, str, List.isPrefixOf])]
    show pySplitOnAux paraSep (f + 1) ('\n' :: (zrun k ++ s)) ('z' :: cur) = _
    rw [pySplitOnAux_succ]
    rw [if_neg (by simp [paraSep, str, ht, List.isPrefixOf])]
    show pySplitOnAux paraSep f (zrun k ++ s) ('\n' :: 'z' :: cur) = _
    rw [ih f s _ (by omega)]
    have hfuel : f - (2 * k + 1) = f + 1 + 1 - (2 * (k + 1) + 1) := by omega
    rw [hfuel]
    simp [show zrun (k + 1) = 'z' :: '\n' :: zrun k from rfl]

theorem pySplitOnAux_sep (fuel : Nat) (s cur : Str) (h : 1 ≤ fuel) :
    pySplitOnAux paraSep fuel (paraSep ++ s) cur =
      cur.reverse :: pySplitOnAux paraSep (fuel - 1) s [] := by
  obtain ⟨f, rfl⟩ : ∃ f, fuel = f + 1 := ⟨fuel - 1, by omega⟩
  show pySplitOnAux paraSep (f + 1) (paraSep ++ s) cur = _
  rw [pySplitOnAux_succ]
  rw [if_pos ⟨by simp [paraSep, str], by simp [paraSep, str, List.isPrefixOf_iff_prefix]⟩]
  simp [paraSep, str]

theorem pySplitOnAux_nonNl (hdr : Str) (hh : hdr.all (fun c => c ≠ '\n') = true) :
    ∀ (fuel : Nat) (s cur : Str), hdr.length ≤ fuel →
    pySplitOnAux paraSep fuel (hdr ++ s) cur =
      pySplitOnAux paraSep (fuel - hdr.length) s (hdr.reverse ++ cur) := by
  induction hdr with
  | nil => intro fuel s cur _; simp
  | cons c h2 ih =>
    intro fuel s cur hf
    simp only [List.all_cons, Bool.and_eq_true, decide_eq_true_eq] at hh
    obtain ⟨f, rfl⟩ : ∃ f, fuel = f + 1 := ⟨fuel - 1, by simp at hf; omega⟩
    show pySplitOnAux paraSep (f + 1) (c :: (h2 ++ s)) cur = _
    rw [pySplitOnAux_succ]
    rw [if_neg (by
      rintro ⟨-, hp⟩
      simp [paraSep, str, List.isPrefixOf_iff_prefix, List.cons_prefix_cons] at hp
      exact hh.1 hp.1.symm)]
    show pySplitOnAux paraSep f (h2 ++ s) (c :: cur) = _
    rw [ih hh.2 f s (c :: cur) (by simp at hf ⊢; omega)]
    congr 1
    · simp only [List.length_cons]
      omega
    · simp

theorem pyStripLeft_cons (c : Char) (t : Str) (h : isPyWs c = false) :
    pyStripLeft (c :: t) = c :: t := by
  simp [pyStripLeft, h]

theorem pyStripRight_append_zrun (a : Str) (n : Nat) :
    pyStripRight (a ++ zrun n) = a ++ zrun n := by
  obtain ⟨t, ht⟩ := zrun_reverse_z n
  unfold pyStripRight
  rw [List.reverse_append, ht, List.cons_append]
  rw [List.dropWhile_cons_of_neg (by simp [isPyWs])]
  rw [← List.cons_append, ← ht, ← List.reverse_append, List.reverse_reverse]

theorem pyStrip_zrun (n : Nat) : pyStrip (zrun n) = zrun n := by
  obtain ⟨t, ht⟩ := zrun_head_z n
  unfold pyStrip
  rw [ht, pyStripLeft_cons _ _ (by simp [isPyWs]), ← ht]
  simpa using pyStripRight_append_zrun [] n

theorem pyStripLeft_zrun_append (n : Nat) (s : Str) :
    pyStripLeft (zrun n ++ s) = zrun n ++ s := by
  obtain ⟨t, ht⟩ := zrun_head_z n
  rw [ht, List.cons_append]
  exact pyStripLeft_cons _ _ (by simp [isPyWs])

theorem pyStrip_sep_zrun (n : Nat) : pyStrip (paraSep ++ zrun n) = zrun n := by
  unfold pyStrip
  rw [show paraSep ++ zrun n = '\n' :: '\n' :: zrun n from rfl]
  unfold pyStripLeft
  rw [List.dropWhile_cons_of_pos (by simp [isPyWs]),
      List.dropWhile_cons_of_pos (by simp [isPyWs])]
  obtain ⟨t, ht⟩ := zrun_head_z n
  rw [ht, List.dropWhile_cons_of_neg (by simp [isPyWs]), ← ht]
  simpa using pyStripRight_append_zrun [] n

theorem pyStrip_nl_seed (k m : Nat) :
    pyStrip ('\n' :: (zrun k ++ paraSep ++ zrun m)) = zrun k ++ paraSep ++ zrun m := by
  obtain ⟨t, ht⟩ := zrun_head_z k
  unfold pyStrip
  unfold pyStripLeft
  rw [List.dropWhile_cons_of_pos (by simp [isPyWs])]
  rw [show zrun k ++ paraSep ++ zrun m = 'z' :: (t ++ (paraSep ++ zrun m)) from by
    rw [ht]; simp]
  rw [List.dropWhile_cons_of_neg (by simp [isPyWs])]
  rw [show ('z' : Char) :: (t ++ (paraSep ++ zrun m)) = (('z' :: t) ++ paraSep) ++ zrun m from by
    simp]
  rw [pyStripRight_append_zrun]
/-! ## The regex scanners find nothing in the filler -/

theorem scanA_succ (fuel : Nat) (prev : Option Char) (c : Char) (rest : Str) :
    scanA (fuel + 1) prev (c :: rest) =
      match tryMatchA prev (c :: rest) with
      | some (g, after) => g :: scanA fuel g.2.2.getLast? after
      | none => scanA fuel (some c) rest := rfl

theorem scanA_nil (fuel : Nat) (prev : Option Char) : scanA fuel prev [] = [] := by
  cases fuel <;> rfl

theorem tryMatchA_none_nondigit (prev : Option Char) (c : Char) (rest : Str)
    (h : isPyDigit c = false) : tryMatchA prev (c :: rest) = none := by
  unfold tryMatchA
  split
  · rfl
  · rw [if_pos]
    rintro ⟨-, hall⟩
    rw [List.take_succ_cons, List.all_cons, h] at hall
    simp at hall

theorem scanA_nodigit (t : Str) (ht : t.all (fun c => !isPyDigit c) = true) :
    ∀ (fuel : Nat) (prev : Option Char), scanA fuel prev t = [] := by
  induction t with
  | nil => intro fuel prev; exact scanA_nil fuel prev
  | cons c rest ih =>
    intro fuel prev
    simp only [List.all_cons, Bool.and_eq_true, Bool.not_eq_eq_eq_not, Bool.not_true] at ht
    cases fuel with
    | zero => rfl
    | succ fuel =>
      rw [scanA_succ, tryMatchA_none_nondigit prev c rest ht.1]
      exact ih (by simpa using ht.2) fuel (some c)

theorem scanB_succ (fuel : Nat) (prev : Option Char) (c : Char) (rest : Str) :
    scanB (fuel + 1) prev (c :: rest) =
      match tryMatchB prev (c :: rest) with
      | some (g, after) => g :: scanB fuel g.2.2.getLast? after
      | none => scanB fuel (some c) rest := rfl

theorem scanB_nil (fuel : Nat) (prev : Option Char) : scanB fuel prev [] = [] := by
  cases fuel <;> rfl

theorem tryMatchB_none_window (prev : Option Char) (s : Str)
    (h : ¬((s.take 2).length = 2 ∧ (s.take 2).all isNonNL = true)) :
    tryMatchB prev s = none := by
  unfold tryMatchB
  split
  · rfl
  · rw [if_neg h]

theorem tryMatchB_none_z_nl (prev : Option Char) (t : Str) :
    tryMatchB prev ('z' :: '\n' :: t) = none := by
  apply tryMatchB_none_window
  rintro ⟨-, hall⟩
  simp [isNonNL] at hall

theorem tryMatchB_none_nl (prev : Option Char) (t : Str) :
    tryMatchB prev ('\n' :: t) = none := by
  apply tryMatchB_none_window
  rintro ⟨hlen, hall⟩
  rw [List.take_succ_cons, List.all_cons] at hall
  simp [isNonNL] at hall

theorem tryMatchB_none_single (prev : Option Char) (c : Char) :
    tryMatchB prev [c] = none := by
  apply tryMatchB_none_window
  rintro ⟨hlen, -⟩
  simp at hlen

theorem scanB_zrun (fuel : Nat) : ∀ (k : Nat) (prev : Option Char),
    scanB fuel prev (zrun k) = [] ∧ scanB fuel prev ('\n' :: zrun k) = [] := by
  induction fuel with
  | zero => intro k prev; exact ⟨rfl, rfl⟩
  | succ fuel ih =>
    intro k prev
    constructor
    · cases k with
      | zero =>
        rw [show zrun 0 = ['z'] from rfl, scanB_succ, tryMatchB_none_single]
        exact scanB_nil fuel (some 'z')
      | succ k =>
        rw [show zrun (k + 1) = 'z' :: '\n' :: zrun k from rfl, scanB_succ,
          tryMatchB_none_z_nl]
        exact (ih k (some 'z')).2
    · rw [scanB_succ, tryMatchB_none_nl]
      exact (ih k (some '\n')).1

theorem scanHeader_succ (fuel : Nat) (prev : Option Char) (c : Char) (rest : Str) :
    scanHeader (fuel + 1) prev (c :: rest) =
      match tryMatchHeader prev (c :: rest) with
      | some (g, after) => g :: scanHeader fuel g.getLast? after
      | none => scanHeader fuel (some c) rest := rfl

theorem scanHeader_nil (fuel : Nat) (prev : Option Char) : scanHeader fuel prev [] = [] := by
  cases fuel <;> rfl

theorem tryMatchHeader_none_notg (prev : Option Char) (c : Char) (rest : Str)
    (h : (c.toLower = 'g') = False) : tryMatchHeader prev (c :: rest) = none := by
  unfold tryMatchHeader
  split
  · rfl
  · rw [if_pos]
    rintro ⟨-, hlow⟩
    rw [List.take_succ_cons] at hlow
    unfold pyLower at hlow
    rw [List.map_cons] at hlow
    have : c.toLower = 'g' := by
      have := congrArg (fun l => l.head?) hlow
      simpa [str] using this
    rw [h] at this
    exact this

theorem scanHeader_zOrNl (t : Str) (ht : t.all (fun c => c = 'z' || c = '\n') = true) :
    ∀ (fuel : Nat) (prev : Option Char), scanHeader fuel prev t = [] := by
  induction t with
  | nil => intro fuel prev; exact scanHeader_nil fuel prev
  | cons c rest ih =>
    intro fuel prev
    simp only [List.all_cons, Bool.and_eq_true, Bool.or_eq_true, decide_eq_true_eq] at ht
    cases fuel with
    | zero => rfl
    | succ fuel =>
      rw [scanHeader_succ, tryMatchHeader_none_notg prev c rest (by
        rcases ht.1 with h | h <;> subst h <;> simp)]
      exact ih ht.2 fuel (some c)

/-! ## The extraction scans on the filler and on header-only pages -/

theorem zrun_all_zOrNl (n : Nat) : (zrun n).all (fun c => c = 'z' || c = '\n') = true :=
  zrun_all _ (by decide) (by decide) n

theorem zrun_all_nondigit (n : Nat) : (zrun n).all (fun c => !isPyDigit c) = true :=
  zrun_all _ (by decide) (by decide) n

theorem discover_zrun (n : Nat) : discover_guide_numbers_in_text (zrun n) = [] := by
  unfold discover_guide_numbers_in_text
  rw [if_neg (zrun_ne_nil n)]
  rw [scanHeader_zOrNl (zrun n) (zrun_all_zOrNl n)]
  rfl

theorem extract_text_zrun (n : Nat) : extract_un_index_from_text (zrun n) = [] := by
  have h1 : (zrun n).map (fun c => if c = Char.ofNat 160 then ' ' else c) = zrun n :=
    zrun_map_id _ (by decide) (by decide) n
  have h2 : ∀ (fuel : Nat) (prev : Option Char), scanA fuel prev (zrun n) = [] :=
    scanA_nodigit (zrun n) (zrun_all_nondigit n)
  have h3 : ∀ (fuel : Nat) (prev : Option Char), scanB fuel prev (zrun n) = [] :=
    fun fuel prev => (scanB_zrun fuel n prev).1
  unfold extract_un_index_from_text
  rw [if_neg (zrun_ne_nil n)]
  simp only [h1, h2, h3, List.filterMap_nil, List.append_nil]
  rfl
/-! ## Chunking a header paragraph followed by the filler -/

theorem pySplitOnAux_zrun_only (n fuel : Nat) (cur : Str) (h : 2 * n + 2 ≤ fuel) :
    pySplitOnAux paraSep fuel (zrun n) cur = [cur.reverse ++ zrun n] := by
  have h2 := pySplitOnAux_zrun n fuel [] cur (by omega)
  rw [List.append_nil] at h2
  rw [h2, pySplitOnAux_nil]
  simp

theorem pySplitOn_hdr_zrun (hdr : Str) (hnl : hdr.all (fun c => c ≠ '\n') = true) (n : Nat) :
    pySplitOn (hdr ++ (paraSep ++ zrun n)) paraSep = [hdr, zrun n] := by
  unfold pySplitOn
  have hL : (hdr ++ (paraSep ++ zrun n)).length = hdr.length + (2 * n + 3) := by
    simp [zrun_length, paraSep, str]
  rw [hL]
  rw [pySplitOnAux_nonNl hdr hnl _ _ _ (by omega)]
  rw [show hdr.length + (2 * n + 3) + 1 - hdr.length = 2 * n + 4 from by omega]
  rw [pySplitOnAux_sep _ _ _ (by omega)]
  rw [show 2 * n + 4 - 1 = 2 * n + 3 from by omega]
  rw [pySplitOnAux_zrun_only n _ [] (by omega)]
  simp

theorem pyStrip_hdr_sep_zrun (c : Char) (t : Str) (n : Nat) (hc : isPyWs c = false) :
    pyStrip ((c :: t) ++ (paraSep ++ zrun n)) = (c :: t) ++ (paraSep ++ zrun n) := by
  unfold pyStrip
  rw [List.cons_append, pyStripLeft_cons _ _ hc, ← List.cons_append, ← List.append_assoc]
  rw [pyStripRight_append_zrun]

theorem chunk_text_hdr_zrun (hdr : Str) (hne : hdr ≠ [])
    (hnl : hdr.all (fun c => c ≠ '\n') = true)
    (hstrip : pyStrip hdr = hdr) (hlen : hdr.length = 9) (n : Nat) (hn : 895 ≤ n) :
    chunk_text (hdr ++ (paraSep ++ zrun n)) 1800 200 = [hdr, zrun n] := by
  have hparas : chunkParas (hdr ++ (paraSep ++ zrun n)) = [hdr, zrun n] := by
    unfold chunkParas
    rw [pySplitOn_hdr_zrun hdr hnl n]
    simp [hstrip, pyStrip_zrun, hne, zrun_ne_nil]
  have hc1 : ¬(hdr.length + 2 + (zrun n).length ≤ 1800) := by
    rw [hlen, zrun_length]
    omega
  have hc2 : ¬(0 < 200 ∧ 200 < hdr.length) := by
    rw [hlen]
    omega
  have hstep1 : chunkStep 1800 200 ([], []) hdr = ([], hdr) := by
    simp [chunkStep]
  have hstep2 : chunkStep 1800 200 ([], hdr) (zrun n) = ([hdr], zrun n) := by
    simp only [chunkStep]
    rw [if_neg hne, if_neg hc1, if_neg hc2]
    rw [List.nil_append, List.nil_append, pyStrip_sep_zrun]
  have htne : hdr ++ (paraSep ++ zrun n) ≠ [] := by
    simp [hne]
  simp only [chunk_text]
  rw [if_neg htne, hparas]
  rw [List.foldl_cons, hstep1, List.foldl_cons, hstep2, List.foldl_nil]
  rw [if_neg (zrun_ne_nil n)]
  rfl

/-! ## The embedding-duplication input, stage by stage -/

theorem discover_hdr123 : discover_guide_numbers_in_text (str "GUIDE 123") = [str "123"] := by
  decide

theorem discover_hdr124 : discover_guide_numbers_in_text (str "GUIDE 124") = [str "124"] := by
  decide

theorem extract_hdr123 : extract_un_index_from_text (str "GUIDE 123") = [] := by decide

theorem extract_hdr124 : extract_un_index_from_text (str "GUIDE 124") = [] := by decide

theorem c7_chunks123 :
    chunk_text (str "GUIDE 123" ++ (paraSep ++ zfill)) 1800 200 = [str "GUIDE 123", zfill] :=
  chunk_text_hdr_zrun _ (by decide) (by decide) (by decide) (by decide) 895 (by omega)

theorem c7_chunks124 :
    chunk_text (str "GUIDE 124" ++ (paraSep ++ zfill)) 1800 200 = [str "GUIDE 124", zfill] :=
  chunk_text_hdr_zrun _ (by decide) (by decide) (by decide) (by decide) 895 (by omega)

theorem c7_gst :
    c7doc.pages.foldl guideScanStep ⟨[], [], none⟩ =
      ⟨[(str "123", [150, 151]), (str "124", [152, 153])],
       [(str "123", [str "GUIDE 123", zfill]), (str "124", [str "GUIDE 124", zfill])],
       some (str "124")⟩ := by
  have d2 : discover_guide_numbers_in_text zfill = [] := discover_zrun 895
  have e1 : guideScanStep ⟨[], [], none⟩ ⟨150, str "GUIDE 123"⟩ =
      ⟨[(str "123", [150])], [(str "123", [str "GUIDE 123"])], some (str "123")⟩ := by
    unfold guideScanStep
    rw [if_pos (by norm_num)]
    rw [show (⟨150, str "GUIDE 123"⟩ : PageIn).text = str "GUIDE 123" from rfl, discover_hdr123]
    rfl
  have e2 : guideScanStep
      ⟨[(str "123", [150])], [(str "123", [str "GUIDE 123"])], some (str "123")⟩
      ⟨151, zfill⟩ =
      ⟨[(str "123", [150, 151])], [(str "123", [str "GUIDE 123", zfill])], some (str "123")⟩ := by
    unfold guideScanStep
    rw [if_pos (by norm_num)]
    rw [show (⟨151, zfill⟩ : PageIn).text = zfill from rfl, d2]
    rfl
  have e3 : guideScanStep
      ⟨[(str "123", [150, 151])], [(str "123", [str "GUIDE 123", zfill])], some (str "123")⟩
      ⟨152, str "GUIDE 124"⟩ =
      ⟨[(str "123", [150, 151]), (str "124", [152])],
       [(str "123", [str "GUIDE 123", zfill]), (str "124", [str "GUIDE 124"])],
       some (str "124")⟩ := by
    unfold guideScanStep
    rw [if_pos (by norm_num)]
    rw [show (⟨152, str "GUIDE 124"⟩ : PageIn).text = str "GUIDE 124" from rfl, discover_hdr124]
    rfl
  have e4 : guideScanStep
      ⟨[(str "123", [150, 151]), (str "124", [152])],
       [(str "123", [str "GUIDE 123", zfill]), (str "124", [str "GUIDE 124"])],
       some (str "124")⟩
      ⟨153, zfill⟩ =
      ⟨[(str "123", [150, 151]), (str "124", [152, 153])],
       [(str "123", [str "GUIDE 123", zfill]), (str "124", [str "GUIDE 124", zfill])],
       some (str "124")⟩ := by
    unfold guideScanStep
    rw [if_pos (by norm_num)]
    rw [show (⟨153, zfill⟩ : PageIn).text = zfill from rfl, d2]
    rfl
  rw [show c7doc.pages =
    [⟨150, str "GUIDE 123"⟩, ⟨151, zfill⟩, ⟨152, str "GUIDE 124"⟩, ⟨153, zfill⟩] from rfl]
  rw [List.foldl_cons, e1, List.foldl_cons, e2, List.foldl_cons, e3, List.foldl_cons, e4,
    List.foldl_nil]

theorem c7_uset : unIndexSetOf c7doc = [] := by
  have h1 : extract_un_index_from_text zfill = [] := extract_text_zrun 895
  unfold unIndexSetOf unIndexObservations
  rw [show c7doc.pages =
    [⟨150, str "GUIDE 123"⟩, ⟨151, zfill⟩, ⟨152, str "GUIDE 124"⟩, ⟨153, zfill⟩] from rfl]
  rw [show c7doc.tables = ([] : List TableIn) from rfl]
  simp [extract_hdr123, extract_hdr124, h1]

theorem c7_grows :
    guideRowsOf 1
      ⟨[(str "123", [150, 151]), (str "124", [152, 153])],
       [(str "123", [str "GUIDE 123", zfill]), (str "124", [str "GUIDE 124", zfill])],
       some (str "124")⟩ =
      [⟨1, str "123", [150, 151], str "GUIDE 123" ++ (paraSep ++ zfill)⟩,
       ⟨1, str "124", [152, 153], str "GUIDE 124" ++ (paraSep ++ zfill)⟩] := by
  have hs1 : pyStrip (str "GUIDE 123" ++ (paraSep ++ zfill)) =
      str "GUIDE 123" ++ (paraSep ++ zfill) :=
    pyStrip_hdr_sep_zrun 'G' (str "UIDE 123") 895 (by decide)
  have hs2 : pyStrip (str "GUIDE 124" ++ (paraSep ++ zfill)) =
      str "GUIDE 124" ++ (paraSep ++ zfill) :=
    pyStrip_hdr_sep_zrun 'G' (str "UIDE 124") 895 (by decide)
  have hne1 : str "GUIDE 123" ++ (paraSep ++ zfill) ≠ [] := by simp [str]
  have hne2 : str "GUIDE 124" ++ (paraSep ++ zfill) ≠ [] := by simp [str]
  unfold guideRowsOf
  simp only [List.filterMap_cons, List.filterMap_nil]
  rw [show (List.lookup (str "123")
      [(str "123", [str "GUIDE 123", zfill]), (str "124", [str "GUIDE 124", zfill])]).getD [] =
      [str "GUIDE 123", zfill] from rfl]
  rw [show (List.lookup (str "124")
      [(str "123", [str "GUIDE 123", zfill]), (str "124", [str "GUIDE 124", zfill])]).getD [] =
      [str "GUIDE 124", zfill] from rfl]
  rw [show pyJoin paraSep [str "GUIDE 123", zfill] = str "GUIDE 123" ++ (paraSep ++ zfill) from rfl]
  rw [show pyJoin paraSep [str "GUIDE 124", zfill] = str "GUIDE 124" ++ (paraSep ++ zfill) from rfl]
  rw [hs1, hs2, if_neg hne1, if_neg hne2]
  rfl

set_option maxRecDepth 4000 in
theorem c7_emb_chunks :
    (ingestWrite ErgDb.empty c7doc (str "ERG2024") (str "ERG2024") true).2.embChunks =
      [⟨1, str "guide_text", none, some (str "123"), none, str "GUIDE 123",
         sha256HexOfStr (str "GUIDE 123")⟩,
       ⟨1, str "guide_text", none, some (str "123"), none, zfill, sha256HexOfStr zfill⟩,
       ⟨1, str "guide_text", none, some (str "124"), none, str "GUIDE 124",
         sha256HexOfStr (str "GUIDE 124")⟩,
       ⟨1, str "guide_text", none, some (str "124"), none, zfill, sha256HexOfStr zfill⟩] := by
  simp only [ingestWrite]
  rw [show ErgDb.empty.nextId = 1 from rfl]
  rw [c7_gst, c7_uset, c7_grows]
  rw [show ErgDb.empty.embChunks = [] from rfl]
  unfold mkEmbChunks
  rw [List.flatMap_cons, List.flatMap_cons, List.flatMap_nil]
  simp only []
  rw [c7_chunks123, c7_chunks124]
  rfl
/-- C7 (code bug): the embedding pass performs no content-hash
deduplication.  Ingesting `c7doc` — two Orange-section guides whose texts
share the same filler paragraph — stores two embedding chunks with the
same `(source_document_id, content_sha256)` pair in one run, refuting the
claimed skip-on-duplicate-hash behaviour and the per-generation
uniqueness asserted by the model's `uq_erg_embedding_content` constraint. -/
theorem ingest_duplicate_embedding_chunks :
    ∃ r, ingest_from_extraction ErgDb.empty (some [c7doc]) false true = .ok r ∧
      r.2.embChunks.map (fun c => (c.sourceDocumentId, c.content)) =
        [(1, str "GUIDE 123"), (1, zfill), (1, str "GUIDE 124"), (1, zfill)] ∧
      ¬ (r.2.embChunks.map (fun c => (c.sourceDocumentId, c.contentSha256))).Nodup := by
  refine ⟨ingestWrite ErgDb.empty c7doc (str "ERG2024") (str "ERG2024") true, ?_, ?_, ?_⟩
  · rfl
  · rw [c7_emb_chunks]
    rfl
  · rw [c7_emb_chunks]
    intro h
    simp only [List.map_cons, List.map_nil] at h
    rw [List.nodup_cons, List.nodup_cons] at h
    exact h.2.1 (by simp)
/-! ## The chunker on the three-paragraph counterexample input -/

theorem drop_append_ge {α : Type} (l₁ l₂ : List α) (n : Nat) (h : l₁.length ≤ n) :
    (l₁ ++ l₂).drop n = l₂.drop (n - l₁.length) := by
  rw [List.drop_append_eq_append_drop, List.drop_eq_nil_of_le h, List.nil_append]

theorem c3_split : pySplitOn c3text paraSep = [zrun 899, zrun 800, zrun 5] := by
  have hL : c3text.length = 3415 := by
    simp [c3text, zrun_length, paraSep, str]
  unfold pySplitOn
  rw [hL]
  unfold c3text
  simp only [List.append_assoc]
  rw [show (3415 : Nat) + 1 = 3416 from by norm_num]
  rw [pySplitOnAux_zrun 899 3416 _ [] (by omega)]
  rw [show (3416 : Nat) - (2 * 899 + 1) = 1617 from by norm_num]
  rw [pySplitOnAux_sep 1617 _ _ (by omega)]
  rw [show (1617 : Nat) - 1 = 1616 from by norm_num]
  rw [pySplitOnAux_zrun 800 1616 _ [] (by omega)]
  rw [show (1616 : Nat) - (2 * 800 + 1) = 15 from by norm_num]
  rw [pySplitOnAux_sep 15 _ _ (by omega)]
  rw [show (15 : Nat) - 1 = 14 from by norm_num]
  rw [pySplitOnAux_zrun_only 5 14 [] (by omega)]
  simp

theorem c3_paras : chunkParas c3text = [zrun 899, zrun 800, zrun 5] := by
  unfold chunkParas
  rw [c3_split]
  simp [pyStrip_zrun, zrun_ne_nil]

theorem c3_chunks :
    chunk_text c3text 1800 200 =
      [zrun 899, zrun 99 ++ paraSep ++ zrun 800, zrun 99 ++ paraSep ++ zrun 5] := by
  have hlen899 : (zrun 899).length = 1799 := by rw [zrun_length]
  have hlenbuf : (zrun 99 ++ paraSep ++ zrun 800).length = 1802 := by
    simp [zrun_length, paraSep, str]
  have s1 : chunkStep 1800 200 ([], []) (zrun 899) = ([], zrun 899) := rfl
  have s2 : chunkStep 1800 200 ([], zrun 899) (zrun 800) =
      ([zrun 899], zrun 99 ++ paraSep ++ zrun 800) := by
    have key : ∀ Z : Str, Z = zrun 899 →
        chunkStep 1800 200 ([], Z) (zrun 800) = ([Z], zrun 99 ++ paraSep ++ zrun 800) := by
      intro Z hz
      simp only [chunkStep]
      rw [if_neg (show Z ≠ [] from hz ▸ zrun_ne_nil 899)]
      rw [if_neg (show ¬(Z.length + 2 + (zrun 800).length ≤ 1800) from by
        subst hz; rw [zrun_length, zrun_length]; omega)]
      rw [if_pos (show 0 < 200 ∧ 200 < Z.length from by subst hz; rw [zrun_length]; omega)]
      subst hz
      rw [hlen899]
      rw [show (1799 : Nat) - 200 = 2 * 799 + 1 from by norm_num]
      rw [zrun_drop_odd 799 899 (by omega)]
      rw [show (899 : Nat) - 799 - 1 = 99 from by norm_num]
      rw [List.cons_append, List.cons_append]
      rw [pyStrip_nl_seed 99 800]
      rw [List.nil_append]
    exact key (zrun 899) rfl
  have s3 : chunkStep 1800 200 ([zrun 899], zrun 99 ++ paraSep ++ zrun 800) (zrun 5) =
      ([zrun 899, zrun 99 ++ paraSep ++ zrun 800], zrun 99 ++ paraSep ++ zrun 5) := by
    have key : ∀ Z : Str, Z = zrun 99 ++ paraSep ++ zrun 800 →
        chunkStep 1800 200 ([zrun 899], Z) (zrun 5) =
          ([zrun 899, Z], zrun 99 ++ paraSep ++ zrun 5) := by
      intro Z hz
      simp only [chunkStep]
      rw [if_neg (show Z ≠ [] from by subst hz; simp [zrun_ne_nil])]
      rw [if_neg (show ¬(Z.length + 2 + (zrun 5).length ≤ 1800) from by
        subst hz; rw [hlenbuf, zrun_length]; omega)]
      rw [if_pos (show 0 < 200 ∧ 200 < Z.length from by subst hz; rw [hlenbuf]; omega)]
      subst hz
      rw [hlenbuf]
      rw [drop_append_ge (zrun 99 ++ paraSep) (zrun 800) (1802 - 200)
        (by simp [zrun_length, paraSep, str])]
      rw [show (1802 : Nat) - 200 - (zrun 99 ++ paraSep).length = 2 * 700 + 1 from by
        simp [zrun_length, paraSep, str]]
      rw [zrun_drop_odd 700 800 (by omega)]
      rw [show (800 : Nat) - 700 - 1 = 99 from by norm_num]
      rw [List.cons_append, List.cons_append, List.cons_append]
      rw [pyStrip_nl_seed 99 5]
      rfl
    exact key (zrun 99 ++ paraSep ++ zrun 800) rfl
  have htne : c3text ≠ [] := by
    unfold c3text
    simp [zrun_ne_nil]
  simp only [chunk_text]
  rw [if_neg htne, c3_paras]
  rw [List.foldl_cons, s1, List.foldl_cons, s2, List.foldl_cons, s3, List.foldl_nil]
  rw [if_neg (show zrun 99 ++ paraSep ++ zrun 5 ≠ [] from by simp [zrun_ne_nil])]
  rfl

/-- C3 (counterexample): on `c3text` every source paragraph has at most
1800 characters, yet the chunker's second emitted chunk — the stripped
overlap seed, the separator and the second paragraph — has 1802.  The
claimed bound "no emitted chunk exceeds max_chars unless a single source
paragraph alone exceeds it" is false. -/
theorem chunk_text_length_bound_cex :
    (∀ p ∈ chunkParas c3text, p.length ≤ 1800) ∧
    ∃ ch ∈ chunk_text c3text 1800 200, 1800 < ch.length := by
  constructor
  · rw [c3_paras]
    intro p hp
    simp only [List.mem_cons, List.not_mem_nil, or_false] at hp
    rcases hp with rfl | rfl | rfl <;> rw [zrun_length] <;> omega
  · refine ⟨zrun 99 ++ paraSep ++ zrun 800, ?_, ?_⟩
    · rw [c3_chunks]
      simp
    · simp [zrun_length, paraSep, str]
/-! ## Stripping: heads, idempotence and append decomposition -/

theorem dropWhile_head_not (p : Char → Bool) (l : Str) (c : Char) (t : Str)
    (h : l.dropWhile p = c :: t) : p c = false := by
  induction l with
  | nil => simp at h
  | cons a l ih =>
    rw [List.dropWhile_cons] at h
    split at h
    · exact ih h
    · rename_i ha
      cases h
      simpa using ha

theorem dropWhile_idem (p : Char → Bool) (l : Str) :
    (l.dropWhile p).dropWhile p = l.dropWhile p := by
  cases h : l.dropWhile p with
  | nil => rfl
  | cons c t =>
    exact List.dropWhile_cons_of_neg (by simp [dropWhile_head_not p l c t h])

theorem dropWhile_eq_self_head (p : Char → Bool) (c : Char) (t : Str)
    (h : (c :: t).dropWhile p = c :: t) : p c = false := by
  rw [List.dropWhile_cons] at h
  split at h
  · have hlen := congrArg List.length h
    have h2 : (t.dropWhile p).length ≤ t.length := (List.dropWhile_suffix _).length_le
    simp at hlen
    omega
  · rename_i hc
    simpa using hc

theorem pyStripLeft_suffix (s : Str) : pyStripLeft s <:+ s := List.dropWhile_suffix isPyWs

theorem pyStripRight_front (s : Str) : pyStripRight s <+: s := by
  unfold pyStripRight
  have h := List.dropWhile_suffix (l := s.reverse) isPyWs
  have h2 : (s.reverse.dropWhile isPyWs).reverse <+: s.reverse.reverse :=
    List.reverse_prefix.mpr (by simpa using h)
  simpa using h2

theorem pyStrip_idem (s : Str) : pyStrip (pyStrip s) = pyStrip s := by
  have hsr : ∀ y : Str, pyStripRight (pyStripRight y) = pyStripRight y := by
    intro y
    unfold pyStripRight
    rw [List.reverse_reverse, dropWhile_idem]
  have hslu : pyStripLeft (pyStripRight (pyStripLeft s)) = pyStripRight (pyStripLeft s) := by
    cases hy : pyStripLeft s with
    | nil => rfl
    | cons c t =>
      have hc : isPyWs c = false := dropWhile_head_not isPyWs s c t hy
      rcases hu : pyStripRight (c :: t) with _ | ⟨c₀, t₀⟩
      · rfl
      · have hpre : (c₀ :: t₀) <+: (c :: t) := hu ▸ pyStripRight_front (c :: t)
        obtain ⟨r, hr⟩ := hpre
        have hc0 : c₀ = c := by
          rw [List.cons_append] at hr
          exact (List.cons.inj hr).1
        subst hc0
        exact List.dropWhile_cons_of_neg (by simp [hc])
  show pyStripRight (pyStripLeft (pyStripRight (pyStripLeft s))) = _
  rw [hslu, hsr]
  rfl

theorem pyStripLeft_of_strip_eq (s : Str) (h : pyStrip s = s) : pyStripLeft s = s := by
  have h1 : pyStripLeft s <:+ s := pyStripLeft_suffix s
  apply h1.eq_of_length
  have h3 := (pyStripRight_front (pyStripLeft s)).length_le
  have h4 := h1.length_le
  have h5 : (pyStrip s).length = s.length := by rw [h]
  unfold pyStrip at h5
  omega

theorem pyStripRight_of_strip_eq (s : Str) (h : pyStrip s = s) : pyStripRight s = s := by
  have h1 := pyStripLeft_of_strip_eq s h
  unfold pyStrip at h
  rw [h1] at h
  exact h

theorem dropWhile_append_of_head (p : Char → Bool) (X s : Str)
    (hs : s.dropWhile p = s) :
    ∃ w, (X ++ s).dropWhile p = w ++ s ∧ w.length ≤ X.length := by
  induction X with
  | nil => exact ⟨[], by simpa using hs, by simp⟩
  | cons a X ih =>
    rw [List.cons_append, List.dropWhile_cons]
    split
    · obtain ⟨w, hw, hl⟩ := ih
      exact ⟨w, hw, by simp; omega⟩
    · exact ⟨a :: X, rfl, le_refl _⟩

theorem pyStripRight_append_of_last (X s : Str) (hne : s ≠ [])
    (hsr : pyStripRight s = s) :
    pyStripRight (X ++ s) = X ++ s := by
  obtain ⟨c, t, hct⟩ : ∃ c t, s.reverse = c :: t := by
    cases hr : s.reverse with
    | nil => exact absurd (by simpa using congrArg List.reverse hr) hne
    | cons c t => exact ⟨c, t, rfl⟩
  have hc : isPyWs c = false := by
    have h2 : s.reverse.dropWhile isPyWs = s.reverse := by
      have h3 := congrArg List.reverse hsr
      unfold pyStripRight at h3
      simpa using h3
    rw [hct] at h2
    exact dropWhile_eq_self_head _ _ _ h2
  unfold pyStripRight
  rw [List.reverse_append, hct, List.cons_append,
    List.dropWhile_cons_of_neg (by simp [hc]), ← List.cons_append, ← hct,
    ← List.reverse_append, List.reverse_reverse]

theorem pyStrip_append_stripped (X p2 : Str) (hne : p2 ≠ []) (hp : pyStrip p2 = p2) :
    ∃ w, pyStrip (X ++ p2) = w ++ p2 ∧ w.length ≤ X.length := by
  have hleft : pyStripLeft p2 = p2 := pyStripLeft_of_strip_eq p2 hp
  obtain ⟨w, hw, hl⟩ := dropWhile_append_of_head isPyWs X p2 hleft
  refine ⟨w, ?_, hl⟩
  unfold pyStrip pyStripLeft
  rw [hw]
  exact pyStripRight_append_of_last w p2 hne (pyStripRight_of_strip_eq p2 hp)

/-! ## Joins and paragraph length bounds -/

theorem pyJoin_cons₂ (sep x y : Str) (ys : List Str) :
    pyJoin sep (x :: y :: ys) = x ++ sep ++ pyJoin sep (y :: ys) := rfl

theorem pyJoin_append_singleton (sep : Str) (g : List Str) (p : Str) (hg : g ≠ []) :
    pyJoin sep (g ++ [p]) = pyJoin sep g ++ sep ++ p := by
  induction g with
  | nil => exact absurd rfl hg
  | cons x g ih =>
    cases g with
    | nil => rfl
    | cons y g2 =>
      rw [show (x :: y :: g2) ++ [p] = x :: ((y :: g2) ++ [p]) from rfl]
      rw [show (y :: g2) ++ [p] = y :: (g2 ++ [p]) from rfl]
      rw [pyJoin_cons₂]
      rw [show (y : Str) :: (g2 ++ [p]) = (y :: g2) ++ [p] from rfl]
      rw [ih (by simp)]
      rw [pyJoin_cons₂]
      simp [List.append_assoc]

theorem maxParaLen_cons (q : Str) (parts : List Str) :
    maxParaLen (q :: parts) = max q.length (maxParaLen parts) := rfl

theorem le_maxParaLen (parts : List Str) (p : Str) (hp : p ∈ parts) :
    p.length ≤ maxParaLen parts := by
  induction parts with
  | nil => cases hp
  | cons q parts ih =>
    rw [maxParaLen_cons]
    rcases List.mem_cons.mp hp with rfl | hp2
    · exact Nat.le_max_left _ _
    · exact le_trans (ih hp2) (Nat.le_max_right _ _)

/-! ## The chunker and its instrumented form walk in step -/

theorem chunk_fold_mirror (maxChars overlap : Nat) :
    ∀ (todo : List Str) (em : List ChunkMeta) (buf : ChunkMeta),
    todo.foldl (chunkStep maxChars overlap) (em.map ChunkMeta.chunk, buf.chunk) =
      ((todo.foldl (chunkMetaStep maxChars overlap) (em, buf)).1.map ChunkMeta.chunk,
       (todo.foldl (chunkMetaStep maxChars overlap) (em, buf)).2.chunk) := by
  intro todo
  induction todo with
  | nil => intro em buf; rfl
  | cons p todo ih =>
    intro em buf
    rw [List.foldl_cons, List.foldl_cons]
    have hstep : chunkStep maxChars overlap (em.map ChunkMeta.chunk, buf.chunk) p =
        ((chunkMetaStep maxChars overlap (em, buf) p).1.map ChunkMeta.chunk,
         (chunkMetaStep maxChars overlap (em, buf) p).2.chunk) := by
      simp only [chunkStep, chunkMetaStep]
      by_cases h1 : buf.chunk = []
      · rw [if_pos h1, if_pos h1]
      · rw [if_neg h1, if_neg h1]
        by_cases h2 : buf.chunk.length + 2 + p.length ≤ maxChars
        · rw [if_pos h2, if_pos h2]
        · rw [if_neg h2, if_neg h2]
          simp
    rw [hstep]
    exact ih _ _

theorem chunkMeta_fold_good (maxChars overlap : Nat) (parts : List Str)
    (hparts : ∀ p ∈ parts, p ≠ [] ∧ pyStrip p = p) :
    ∀ (todo : List Str), (∀ p ∈ todo, p ∈ parts) →
    ∀ (em : List ChunkMeta) (buf : ChunkMeta),
    (∀ m ∈ em, GoodMeta maxChars overlap parts m) →
    (buf.chunk = [] → buf = ⟨[], 0, []⟩) →
    (buf.chunk ≠ [] → GoodMeta maxChars overlap parts buf) →
    (∀ m ∈ (todo.foldl (chunkMetaStep maxChars overlap) (em, buf)).1,
        GoodMeta maxChars overlap parts m) ∧
    ((todo.foldl (chunkMetaStep maxChars overlap) (em, buf)).2.chunk = [] →
        (todo.foldl (chunkMetaStep maxChars overlap) (em, buf)).2 = ⟨[], 0, []⟩) ∧
    ((todo.foldl (chunkMetaStep maxChars overlap) (em, buf)).2.chunk ≠ [] →
        GoodMeta maxChars overlap parts
          (todo.foldl (chunkMetaStep maxChars overlap) (em, buf)).2) ∧
    (((todo.foldl (chunkMetaStep maxChars overlap) (em, buf)).1.map ChunkMeta.paras).flatten
        ++ (todo.foldl (chunkMetaStep maxChars overlap) (em, buf)).2.paras =
      (em.map ChunkMeta.paras).flatten ++ buf.paras ++ todo) := by
  intro todo
  induction todo with
  | nil =>
    intro _ em buf hem hbe hbg
    exact ⟨hem, hbe, hbg, by simp⟩
  | cons p todo ih =>
    intro htodo em buf hem hbe hbg
    have hpp : p ∈ parts := htodo p (List.mem_cons_self p todo)
    obtain ⟨hpne, hpstrip⟩ := hparts p hpp
    have hpmax : p.length ≤ maxParaLen parts := le_maxParaLen parts p hpp
    rw [List.foldl_cons]
    have hrest : ∀ q ∈ todo, q ∈ parts := fun q hq => htodo q (List.mem_cons_of_mem p hq)
    by_cases h1 : buf.chunk = []
    · have hstep : chunkMetaStep maxChars overlap (em, buf) p = (em, ⟨p, 0, [p]⟩) := by
        simp only [chunkMetaStep]
        rw [if_pos h1]
      rw [hstep]
      have hbuf0 := hbe h1
      have hnew : GoodMeta maxChars overlap parts ⟨p, 0, [p]⟩ := by
        refine ⟨⟨[], by simp [pyJoin], rfl, by simp⟩, by simp, ?_⟩
        exact le_trans (le_trans hpmax (by omega)) (Nat.le_max_right _ _)
      obtain ⟨g1, g2, g3, g4⟩ := ih hrest em ⟨p, 0, [p]⟩ hem
        (fun h => absurd h (by simpa using hpne)) (fun _ => hnew)
      refine ⟨g1, g2, g3, ?_⟩
      rw [g4, hbuf0]
      simp
    · by_cases h2 : buf.chunk.length + 2 + p.length ≤ maxChars
      · have hstep : chunkMetaStep maxChars overlap (em, buf) p =
            (em, ⟨buf.chunk ++ paraSep ++ p, buf.dropLen, buf.paras ++ [p]⟩) := by
          simp only [chunkMetaStep]
          rw [if_neg h1, if_pos h2]
        rw [hstep]
        obtain ⟨⟨w, hw, hd, hwl⟩, hgne, _⟩ := hbg h1
        have hnew : GoodMeta maxChars overlap parts
            ⟨buf.chunk ++ paraSep ++ p, buf.dropLen, buf.paras ++ [p]⟩ := by
          refine ⟨⟨w, ?_, hd, hwl⟩, by simp, ?_⟩
          · show buf.chunk ++ paraSep ++ p = w ++ pyJoin paraSep (buf.paras ++ [p])
            rw [pyJoin_append_singleton paraSep buf.paras p hgne, hw]
            simp [List.append_assoc]
          · show (buf.chunk ++ paraSep ++ p).length ≤ _
            have hsl : (buf.chunk ++ paraSep ++ p).length =
                buf.chunk.length + 2 + p.length := by
              simp [paraSep, str]
              omega
            rw [hsl]
            exact le_trans h2 (Nat.le_max_left _ _)
        have hnewne : (buf.chunk ++ paraSep ++ p : Str) ≠ [] := by
          simp [h1]
        obtain ⟨g1, g2, g3, g4⟩ := ih hrest em
          ⟨buf.chunk ++ paraSep ++ p, buf.dropLen, buf.paras ++ [p]⟩ hem
          (fun h => absurd h hnewne) (fun _ => hnew)
        refine ⟨g1, g2, g3, ?_⟩
        rw [g4]
        simp
      · have hstep : chunkMetaStep maxChars overlap (em, buf) p =
            (em ++ [buf],
             ⟨pyStrip ((if 0 < overlap ∧ overlap < buf.chunk.length then
                 buf.chunk.drop (buf.chunk.length - overlap) else []) ++ paraSep ++ p),
              (pyStrip ((if 0 < overlap ∧ overlap < buf.chunk.length then
                 buf.chunk.drop (buf.chunk.length - overlap) else []) ++ paraSep ++ p)).length
                - p.length,
              [p]⟩) := by
          simp only [chunkMetaStep]
          rw [if_neg h1, if_neg h2]
        rw [hstep]
        have htl : ((if 0 < overlap ∧ overlap < buf.chunk.length then
            buf.chunk.drop (buf.chunk.length - overlap) else []) : Str).length ≤ overlap := by
          split
          · rename_i hcond
            rw [List.length_drop]
            omega
          · simp
        obtain ⟨w, hwseed, hwlen⟩ := pyStrip_append_stripped
          ((if 0 < overlap ∧ overlap < buf.chunk.length then
             buf.chunk.drop (buf.chunk.length - overlap) else []) ++ paraSep) p hpne hpstrip
        have hwb : w.length ≤ overlap + 2 := by
          have h3 : ((if 0 < overlap ∧ overlap < buf.chunk.length then
              buf.chunk.drop (buf.chunk.length - overlap) else []) ++ paraSep : Str).length =
              ((if 0 < overlap ∧ overlap < buf.chunk.length then
                buf.chunk.drop (buf.chunk.length - overlap) else []) : Str).length + 2 := by
            simp [paraSep, str]
          omega
        have hseedlen : (pyStrip ((if 0 < overlap ∧ overlap < buf.chunk.length then
            buf.chunk.drop (buf.chunk.length - overlap) else []) ++ paraSep ++ p)).length =
            w.length + p.length := by
          rw [List.append_assoc] at hwseed
          rw [← List.append_assoc] at hwseed
          rw [hwseed]
          simp
        have hnew : GoodMeta maxChars overlap parts
            ⟨pyStrip ((if 0 < overlap ∧ overlap < buf.chunk.length then
               buf.chunk.drop (buf.chunk.length - overlap) else []) ++ paraSep ++ p),
             (pyStrip ((if 0 < overlap ∧ overlap < buf.chunk.length then
               buf.chunk.drop (buf.chunk.length - overlap) else []) ++ paraSep ++ p)).length
               - p.length,
             [p]⟩ := by
          refine ⟨⟨w, ?_, ?_, hwb⟩, by simp, ?_⟩
          · show pyStrip _ = w ++ pyJoin paraSep [p]
            rw [show pyJoin paraSep [p] = p from rfl]
            exact hwseed
          · show (pyStrip _).length - p.length = w.length
            rw [hseedlen]
            omega
          · show (pyStrip _).length ≤ _
            rw [hseedlen]
            exact le_trans (by omega) (Nat.le_max_right maxChars _)
        have hseedne : pyStrip ((if 0 < overlap ∧ overlap < buf.chunk.length then
            buf.chunk.drop (buf.chunk.length - overlap) else []) ++ paraSep ++ p) ≠ [] := by
          rw [hwseed]
          simp [hpne]
        obtain ⟨g1, g2, g3, g4⟩ := ih hrest (em ++ [buf]) _
          (by
            intro m hm
            rcases List.mem_append.mp hm with hm | hm
            · exact hem m hm
            · rw [List.mem_singleton.mp hm]
              exact hbg h1)
          (fun h => absurd h hseedne) (fun _ => hnew)
        refine ⟨g1, g2, g3, ?_⟩
        rw [g4]
        simp
theorem chunkParas_stripped (text : Str) :
    ∀ p ∈ chunkParas text, p ≠ [] ∧ pyStrip p = p := by
  intro p hp
  unfold chunkParas at hp
  have h1 := List.of_mem_filter hp
  have h2 := List.mem_of_mem_filter hp
  obtain ⟨q, _, hq⟩ := List.mem_map.mp h2
  refine ⟨by simpa using h1, ?_⟩
  rw [← hq]
  exact pyStrip_idem q

theorem chunkParas_nil : chunkParas ([] : Str) = [] := rfl

/-- C3 (corrected): what the chunker does guarantee, for every input text
and every `max_chars`/`overlap`.  The instrumented chunker mirrors
`chunk_text` exactly; its chunk groups partition the paragraph sequence,
so concatenating the chunks with each recorded overlap prefix dropped
reproduces the paragraph sequence; and every emitted chunk is bounded by
`max max_chars (overlap + 2 + longest-paragraph-length)` — not by
`max_chars` alone, as the literal claim would have it (see the
counterexample). -/
theorem chunk_text_bound_and_reconstruction (text : Str) (maxChars overlap : Nat) :
    chunk_text text maxChars overlap =
      (chunkMetas maxChars overlap (chunkParas text)).map ChunkMeta.chunk ∧
    ((chunkMetas maxChars overlap (chunkParas text)).map ChunkMeta.paras).flatten =
      chunkParas text ∧
    ∀ m ∈ chunkMetas maxChars overlap (chunkParas text),
      droppedChunk m = pyJoin paraSep m.paras ∧
      m.chunk.length ≤ max maxChars (overlap + 2 + maxParaLen (chunkParas text)) := by
  obtain ⟨g1, g2, g3, g4⟩ :=
    chunkMeta_fold_good maxChars overlap (chunkParas text) (chunkParas_stripped text)
      (chunkParas text) (fun p hp => hp) [] ⟨[], 0, []⟩
      (by intro m hm; cases hm) (fun _ => rfl) (fun h => absurd rfl h)
  have hmetasG : ∀ m ∈ chunkMetas maxChars overlap (chunkParas text),
      GoodMeta maxChars overlap (chunkParas text) m := by
    intro m hm
    simp only [chunkMetas] at hm
    split at hm
    · exact g1 m hm
    · rename_i hc
      rcases List.mem_append.mp hm with hm | hm
      · exact g1 m hm
      · rw [List.mem_singleton.mp hm]
        exact g3 hc
  refine ⟨?_, ?_, ?_⟩
  · by_cases htext : text = []
    · subst htext
      rw [show chunk_text ([] : Str) maxChars overlap = [] from rfl]
      rw [chunkParas_nil]
      rfl
    · have hm := chunk_fold_mirror maxChars overlap (chunkParas text) [] ⟨[], 0, []⟩
      simp only [chunk_text, chunkMetas]
      rw [if_neg htext]
      have hm2 : (chunkParas text).foldl (chunkStep maxChars overlap) ([], []) =
          (((chunkParas text).foldl (chunkMetaStep maxChars overlap)
              ([], ⟨[], 0, []⟩)).1.map ChunkMeta.chunk,
           ((chunkParas text).foldl (chunkMetaStep maxChars overlap)
              ([], ⟨[], 0, []⟩)).2.chunk) := hm
      rw [hm2]
      by_cases hc : ((chunkParas text).foldl (chunkMetaStep maxChars overlap)
          ([], ⟨[], 0, []⟩)).2.chunk = []
      · rw [if_pos hc, if_pos hc]
      · rw [if_neg hc, if_neg hc]
        simp
  · simp only [chunkMetas]
    split
    · rename_i hc
      have hb := g2 hc
      rw [hb] at g4
      simpa using g4
    · simp only [List.map_append, List.flatten_append]
      rw [show ([((chunkParas text).foldl (chunkMetaStep maxChars overlap)
          ([], ⟨[], 0, []⟩)).2].map ChunkMeta.paras).flatten =
          ((chunkParas text).foldl (chunkMetaStep maxChars overlap)
            ([], ⟨[], 0, []⟩)).2.paras from by simp]
      simpa using g4
  · intro m hm
    obtain ⟨⟨w, hw, hd, _⟩, _, hbound⟩ := hmetasG m hm
    refine ⟨?_, hbound⟩
    unfold droppedChunk
    rw [hw, hd]
    exact List.drop_left w _
